import Mathlib

set_option maxRecDepth 100000

/-!
Verification of the AX.25 frame codec and KISS framing engine from the
ax25 library (file frame.rs and kiss.rs), by a shallow embedding into
Lean 4.  Bytes are modelled as natural numbers; Rust u8 arithmetic that
can overflow (left shifts) is modelled with an explicit reduction
modulo 2 to the 8.  Fallible Rust functions returning Result are
modelled with the Except monad.
-/

namespace Ax25

/-! ## Protocol identifier codec (frame.rs, ProtocolIdentifier) -/

/-- Human-readable protocol identifiers, embedding the Rust enum
ProtocolIdentifier from frame.rs. -/
inductive ProtocolIdentifier where
  | layer3Impl
  | x25Plp
  | compressedTcpIp
  | uncompressedTcpIp
  | segmentationFragment
  | texnetDatagram
  | linkQuality
  | appletalk
  | appletalkArp
  | arpaIp
  | arpaAddress
  | flexnet
  | netRom
  | none
  | escape
  | unknown (pid : Nat)
deriving DecidableEq, Repr

/-- Embedding of ProtocolIdentifier::from_byte.  The Rust match tests the
Layer3Impl range guard first, then the fixed table, then falls through to
Unknown. -/
def ProtocolIdentifier.from_byte (byte : Nat) : ProtocolIdentifier :=
  if byte &&& 0x30 = 0x10 ∨ byte &&& 0x30 = 0x20 then .layer3Impl
  else if byte = 0x01 then .x25Plp
  else if byte = 0x06 then .compressedTcpIp
  else if byte = 0x07 then .uncompressedTcpIp
  else if byte = 0x08 then .segmentationFragment
  else if byte = 0xC3 then .texnetDatagram
  else if byte = 0xC4 then .linkQuality
  else if byte = 0xCA then .appletalk
  else if byte = 0xCB then .appletalkArp
  else if byte = 0xCC then .arpaIp
  else if byte = 0xCD then .arpaAddress
  else if byte = 0xCE then .flexnet
  else if byte = 0xCF then .netRom
  else if byte = 0xF0 then .none
  else if byte = 0xFF then .escape
  else .unknown byte

/-- Embedding of ProtocolIdentifier::to_byte. -/
def ProtocolIdentifier.to_byte : ProtocolIdentifier → Nat
  | .layer3Impl => 0x10
  | .x25Plp => 0x01
  | .compressedTcpIp => 0x06
  | .uncompressedTcpIp => 0x07
  | .segmentationFragment => 0x08
  | .texnetDatagram => 0xC3
  | .linkQuality => 0xC4
  | .appletalk => 0xCA
  | .appletalkArp => 0xCB
  | .arpaIp => 0xCC
  | .arpaAddress => 0xCD
  | .flexnet => 0xCE
  | .netRom => 0xCF
  | .none => 0xF0
  | .escape => 0xFF
  | .unknown pid => pid

/-- The set of canonical table octets of the protocol identifier codec. -/
def pidTableOctets : List Nat :=
  [0x01, 0x06, 0x07, 0x08, 0xC3, 0xC4, 0xCA, 0xCB, 0xCC, 0xCD, 0xCE, 0xCF, 0xF0, 0xFF]

/-- An octet is in the Layer3Impl family when its 0x30 mask is 0x10 or 0x20. -/
def layer3Range (b : Nat) : Prop :=
  b &&& 0x30 = 0x10 ∨ b &&& 0x30 = 0x20

instance (b : Nat) : Decidable (layer3Range b) := by
  unfold layer3Range; infer_instance

/-! ## KISS framing engine (kiss.rs) -/

def FEND : Nat := 0xC0
def FESC : Nat := 0xDB
def TFEND : Nat := 0xDC
def TFESC : Nat := 0xDD

/-- The scanning state of make_frame_from_buffer (kiss.rs). -/
inductive Scan where
  | lookingForStartMarker
  | data
  | escaped
deriving DecidableEq, Repr

/-- The read-only scanning loop inside make_frame_from_buffer.  It walks
the buffer keeping the current state and the accumulated frame; on a
successful commit it returns the index of the terminating FEND together
with the accumulated frame, mirroring the `final_idx = idx; break`
pattern of the Rust loop.  Returning none models falling off the end of
the loop with final_idx still 0. -/
def kiss_scan : List Nat → Nat → Scan → List Nat → Option (Nat × List Nat)
  | [], _, _, _ => Option.none
  | c :: rest, idx, state, acc =>
    match state with
    | .lookingForStartMarker =>
      if c = FEND then kiss_scan rest (idx + 1) .data acc
      else kiss_scan rest (idx + 1) .lookingForStartMarker acc
    | .data =>
      if c = FEND then
        if acc ≠ [] then some (idx, acc)
        else kiss_scan rest (idx + 1) .data acc
      else if c = FESC then kiss_scan rest (idx + 1) .escaped acc
      else kiss_scan rest (idx + 1) .data (acc ++ [c])
    | .escaped =>
      if c = TFEND then kiss_scan rest (idx + 1) .data (acc ++ [FEND])
      else if c = TFESC then kiss_scan rest (idx + 1) .data (acc ++ [FESC])
      else if c = FEND ∧ acc ≠ [] then some (idx, acc)
      else kiss_scan rest (idx + 1) .data acc

/-- Embedding of make_frame_from_buffer (kiss.rs).  The Rust function
mutates the buffer in place; here the new buffer contents are returned as
the second component of the pair.  A commit drains the buffer up to, but
not including, the terminating FEND; when final_idx is 0 (no commit) the
buffer is untouched and no frame is returned. -/
def make_frame_from_buffer (buffer : List Nat) : Option (List Nat) × List Nat :=
  match kiss_scan buffer 0 .lookingForStartMarker [] with
  | some (n, fr) => if n = 0 then (Option.none, buffer) else (some fr, buffer.drop n)
  | Option.none => (Option.none, buffer)

/-- The byte sequence written to the TCP stream by one call of
TcpKissInterface::send_frame (kiss.rs): FEND, the 0x00 command byte,
the frame octets verbatim, FEND.  The source performs no byte-stuffing
on this path. -/
def send_frame_bytes (frame : List Nat) : List Nat :=
  [FEND, 0x00] ++ frame ++ [FEND]

/-! ## Address codec (frame.rs) -/

/-- Embedding of the Address struct: a callsign (the UTF-8 bytes of the
Rust String), an SSID and the C bit. -/
structure Address where
  callsign : List Nat
  ssid : Nat
  c_bit : Bool
deriving DecidableEq, Repr

/-- Fuel-indexed model of the space-padding while loop of
Address::to_bytes, which pushes (space shifted left by one) = 0x40 while
the length differs from 6.  none models running out of fuel, which for
the source loop means divergence (callsign longer than six bytes). -/
def pad_loop : Nat → List Nat → Option (List Nat)
  | 0, l => if l.length = 6 then some l else Option.none
  | fuel + 1, l => if l.length = 6 then some l else pad_loop fuel (l ++ [0x40])

/-- Embedding of Address::to_bytes (frame.rs): each callsign byte shifted
left by one (u8 shift, hence mod 256), space padding to six octets, then
the SSID octet.  The source's padding while-loop is replaced by its
effect for callsigns of at most six bytes (it appends exactly
6 - length pad octets); theorem c9_to_bytes_seven ties this definition
to the pad_loop model of the loop.  For longer callsigns the source
loop never terminates. -/
def Address.to_bytes (a : Address) (high_bit final_in_address : Bool) : List Nat :=
  let encoded := a.callsign.map (fun b => (b <<< 1) % 256)
  let padded := encoded ++ List.replicate (6 - encoded.length) 0x40
  let high := if high_bit then 0x80 else 0
  let low := if final_in_address then 0x01 else 0
  padded ++ [((a.ssid <<< 1) % 256) ||| 0x60 ||| high ||| low]

/-- Embedding of the FrameParseError enum (frame.rs).  Error payloads
that only wrap a std error source are dropped. -/
inductive FrameParseError where
  | onlyNullBytes
  | noEndToAddressField
  | addressFieldTooShort (start stop : Nat)
  | frameTooShort (len : Nat)
  | addressInvalidUtf8
  | contentZeroLength
  | missingPidField
  | unrecognisedSFieldType
  | unrecognisedUFieldType
  | wrongSizeFrmrInfo
deriving DecidableEq, Repr

/-- Whether a byte is a UTF-8 continuation byte (0x80..0xBF). -/
def utf8Cont (b : Nat) : Bool := 0x80 ≤ b && b ≤ 0xBF

/-- Model of the UTF-8 validity check performed by String::from_utf8
inside parse_address, following the RFC 3629 well-formed byte patterns.
parse_address only ever exercises the ASCII branch, because every byte
it decodes is an octet shifted right by one. -/
def utf8ValidFuel : Nat → List Nat → Bool
  | _, [] => true
  | 0, _ :: _ => false
  | fuel + 1, b :: l =>
    if b ≤ 0x7F then utf8ValidFuel fuel l
    else if 0xC2 ≤ b && b ≤ 0xDF then
      decide (1 ≤ l.length) && utf8Cont (l.getD 0 0) && utf8ValidFuel fuel (l.drop 1)
    else if b = 0xE0 then
      decide (2 ≤ l.length) && (0xA0 ≤ l.getD 0 0 && l.getD 0 0 ≤ 0xBF) &&
        utf8Cont (l.getD 1 0) && utf8ValidFuel fuel (l.drop 2)
    else if (0xE1 ≤ b && b ≤ 0xEC) || b = 0xEE || b = 0xEF then
      decide (2 ≤ l.length) && utf8Cont (l.getD 0 0) && utf8Cont (l.getD 1 0) &&
        utf8ValidFuel fuel (l.drop 2)
    else if b = 0xED then
      decide (2 ≤ l.length) && (0x80 ≤ l.getD 0 0 && l.getD 0 0 ≤ 0x9F) &&
        utf8Cont (l.getD 1 0) && utf8ValidFuel fuel (l.drop 2)
    else if b = 0xF0 then
      decide (3 ≤ l.length) && (0x90 ≤ l.getD 0 0 && l.getD 0 0 ≤ 0xBF) &&
        utf8Cont (l.getD 1 0) && utf8Cont (l.getD 2 0) && utf8ValidFuel fuel (l.drop 3)
    else if 0xF1 ≤ b && b ≤ 0xF3 then
      decide (3 ≤ l.length) && utf8Cont (l.getD 0 0) && utf8Cont (l.getD 1 0) &&
        utf8Cont (l.getD 2 0) && utf8ValidFuel fuel (l.drop 3)
    else if b = 0xF4 then
      decide (3 ≤ l.length) && (0x80 ≤ l.getD 0 0 && l.getD 0 0 ≤ 0x8F) &&
        utf8Cont (l.getD 1 0) && utf8Cont (l.getD 2 0) && utf8ValidFuel fuel (l.drop 3)
    else false

/-- Validity of a UTF-8 byte sequence.  The fuel argument of the helper
is only a structural-recursion device; the list length always suffices
because every step consumes at least one byte. -/
def utf8Valid (l : List Nat) : Bool := utf8ValidFuel l.length l

/-- Embedding of parse_address (frame.rs).  The callsign is read from
the first six octets: reverse, shift each right by one, skip the leading
(that is, originally trailing) space bytes, reverse back.  The
String::from_utf8 check is modelled by utf8Valid. -/
def parse_address (bytes : List Nat) : Except FrameParseError Address :=
  if utf8Valid
      ((((bytes.take 6).reverse.map (fun c => c >>> 1)).dropWhile (fun c => c == 0x20)).reverse) then
    .ok { callsign :=
            (((bytes.take 6).reverse.map (fun c => c >>> 1)).dropWhile (fun c => c == 0x20)).reverse
          ssid := (bytes.getD 6 0 >>> 1) &&& 0x0F
          c_bit := bytes.getD 6 0 &&& 0x80 != 0 }
  else .error .addressInvalidUtf8

/-- An uppercase alphanumeric ASCII byte (A-Z or 0-9). -/
def uppercaseAlnumByte (b : Nat) : Prop :=
  (0x41 ≤ b ∧ b ≤ 0x5A) ∨ (0x30 ≤ b ∧ b ≤ 0x39)

instance (b : Nat) : Decidable (uppercaseAlnumByte b) := by
  unfold uppercaseAlnumByte; infer_instance

/-! ## Address text parsing (frame.rs, FromStr for Address)

Strings are modelled as lists of Unicode scalar values.  Rust's
char::is_alphanumeric and str::to_uppercase are modelled in their ASCII
fragment; theorem c8_from_str_spec therefore restricts its input to
ASCII strings. -/

/-- Embedding of the AddressParseError enum (frame.rs). -/
inductive AddressParseError where
  | invalidFormat
  | invalidSsid
  | ssidOutOfRange
deriving DecidableEq, Repr

/-- Model of str::split('-'): n separators yield n + 1 parts. -/
def split_on_dash : List Nat → List (List Nat)
  | [] => [[]]
  | c :: rest =>
    if c = 45 then [] :: split_on_dash rest
    else
      match split_on_dash rest with
      | p :: ps => (c :: p) :: ps
      | [] => [[c]]

/-- ASCII fragment of Rust's char::is_alphanumeric. -/
def rust_is_alphanumeric (c : Nat) : Bool :=
  (65 ≤ c && c ≤ 90) || (97 ≤ c && c ≤ 122) || (48 ≤ c && c ≤ 57)

/-- ASCII fragment of Rust's str::to_uppercase, per character. -/
def rust_to_uppercase (c : Nat) : Nat :=
  if 97 ≤ c ∧ c ≤ 122 then c - 32 else c

/-- The digit-accumulating core of u8::from_str: rejects non-digit
characters and values above 255. -/
def parse_digits : Nat → List Nat → Option Nat
  | acc, [] => some acc
  | acc, c :: rest =>
    if 48 ≤ c ∧ c ≤ 57 then
      if 255 < acc * 10 + (c - 48) then Option.none
      else parse_digits (acc * 10 + (c - 48)) rest
    else Option.none

/-- Model of str::parse::<u8>: an optional leading plus sign followed by
at least one ASCII digit, overflow above 255 rejected. -/
def parse_u8 : List Nat → Option Nat
  | [] => Option.none
  | c :: rest =>
    if c = 43 then
      if rest = [] then Option.none else parse_digits 0 rest
    else parse_digits 0 (c :: rest)

/-- Embedding of Address::from_str (frame.rs): split on the dash into
exactly two parts, uppercase the callsign, check it is non-empty (the
source tests is_empty), at most six characters, and alphanumeric (the
source loops over the characters, erroring on the first non-alphanumeric
one, which is the same decision as the bounded universal here), then
parse the SSID as a u8 and range-check it. -/
def Address.from_str (s : List Nat) : Except AddressParseError Address :=
  if (split_on_dash s).length ≠ 2 then .error .invalidFormat
  else if ((split_on_dash s).getD 0 []).map rust_to_uppercase = [] ∨
      6 < (((split_on_dash s).getD 0 []).map rust_to_uppercase).length then
    .error .invalidFormat
  else if ¬ (∀ c ∈ ((split_on_dash s).getD 0 []).map rust_to_uppercase,
      rust_is_alphanumeric c = true) then
    .error .invalidFormat
  else
    match parse_u8 ((split_on_dash s).getD 1 []) with
    | Option.none => .error .invalidSsid
    | some ssid =>
      if 15 < ssid then .error .ssidOutOfRange
      else .ok { callsign := ((split_on_dash s).getD 0 []).map rust_to_uppercase,
                 ssid := ssid, c_bit := false }

/-- The success conditions that Address::from_str places on the raw
(not yet uppercased) callsign part. -/
def callsign_ok (p : List Nat) : Prop :=
  p ≠ [] ∧ p.length ≤ 6 ∧ ∀ c ∈ p, rust_is_alphanumeric c = true

instance (p : List Nat) : Decidable (callsign_ok p) := by
  unfold callsign_ok; infer_instance

/-! ## Frame content codec (frame.rs) -/

/-- Command or Response marker (frame.rs, CommandResponse). -/
inductive CommandResponse where
  | command
  | response
deriving DecidableEq, Repr

/-- Information (I) frame body. -/
structure Information where
  pid : ProtocolIdentifier
  info : List Nat
  receive_sequence : Nat
  send_sequence : Nat
  poll : Bool
deriving DecidableEq, Repr

/-- RR Supervisory (S) frame body. -/
structure ReceiveReady where
  receive_sequence : Nat
  poll_or_final : Bool
deriving DecidableEq, Repr

/-- RNR Supervisory (S) frame body. -/
structure ReceiveNotReady where
  receive_sequence : Nat
  poll_or_final : Bool
deriving DecidableEq, Repr

/-- REJ Supervisory (S) frame body. -/
structure Reject where
  receive_sequence : Nat
  poll_or_final : Bool
deriving DecidableEq, Repr

/-- SABM Unnumbered (U) frame body. -/
structure SetAsynchronousBalancedMode where
  poll : Bool
deriving DecidableEq, Repr

/-- DISC Unnumbered (U) frame body. -/
structure Disconnect where
  poll : Bool
deriving DecidableEq, Repr

/-- DM Unnumbered (U) frame body. -/
structure DisconnectedMode where
  final_bit : Bool
deriving DecidableEq, Repr

/-- UA Unnumbered (U) frame body. -/
structure UnnumberedAcknowledge where
  final_bit : Bool
deriving DecidableEq, Repr

/-- FRMR Unnumbered (U) frame body. -/
structure FrameReject where
  final_bit : Bool
  rejected_control_field_raw : Nat
  z : Bool
  y : Bool
  x : Bool
  w : Bool
  receive_sequence : Nat
  send_sequence : Nat
  command_response : CommandResponse
deriving DecidableEq, Repr

/-- UI Unnumbered Information frame body. -/
structure UnnumberedInformation where
  pid : ProtocolIdentifier
  info : List Nat
  poll_or_final : Bool
deriving DecidableEq, Repr

/-- Placeholder for an unparseable control field. -/
structure UnknownContent where
  raw : List Nat
deriving DecidableEq, Repr

/-- The body of the frame after the address field (frame.rs,
FrameContent). -/
inductive FrameContent where
  | information (i : Information)
  | receiveReady (rr : ReceiveReady)
  | receiveNotReady (rnr : ReceiveNotReady)
  | reject (rej : Reject)
  | setAsynchronousBalancedMode (sabm : SetAsynchronousBalancedMode)
  | disconnect (disc : Disconnect)
  | disconnectedMode (dm : DisconnectedMode)
  | unnumberedAcknowledge (ua : UnnumberedAcknowledge)
  | frameReject (fr : FrameReject)
  | unnumberedInformation (ui : UnnumberedInformation)
  | unknownContent (uc : UnknownContent)
deriving DecidableEq, Repr

/-- Embedding of FrameContent::encode (frame.rs).  Rust u8 arithmetic:
all shifted operands are first masked to 3 bits, so no reduction modulo
256 is needed except where noted. -/
def FrameContent.encode : FrameContent → List Nat
  | .information i =>
    (((i.receive_sequence &&& 0b0111) <<< 5) |||
      (if i.poll then 1 <<< 4 else 0) |||
      ((i.send_sequence &&& 0b0111) <<< 1)) :: i.pid.to_byte :: i.info
  | .receiveReady rr =>
    [0b00000001 ||| (if rr.poll_or_final then 1 <<< 4 else 0) |||
      ((rr.receive_sequence &&& 0b0111) <<< 5)]
  | .receiveNotReady rnr =>
    [0b00000101 ||| (if rnr.poll_or_final then 1 <<< 4 else 0) |||
      ((rnr.receive_sequence &&& 0b0111) <<< 5)]
  | .reject rej =>
    [0b00001001 ||| (if rej.poll_or_final then 1 <<< 4 else 0) |||
      ((rej.receive_sequence &&& 0b0111) <<< 5)]
  | .setAsynchronousBalancedMode sabm =>
    [0b00101111 ||| (if sabm.poll then 1 <<< 4 else 0)]
  | .disconnect disc =>
    [0b01000011 ||| (if disc.poll then 1 <<< 4 else 0)]
  | .disconnectedMode dm =>
    [0b00001111 ||| (if dm.final_bit then 1 <<< 4 else 0)]
  | .unnumberedAcknowledge ua =>
    [0b01100011 ||| (if ua.final_bit then 1 <<< 4 else 0)]
  | .frameReject fr =>
    [0b10000111 ||| (if fr.final_bit then 1 <<< 4 else 0),
      (if fr.z then 1 <<< 3 else 0) ||| (if fr.y then 1 <<< 2 else 0) |||
        (if fr.x then 1 <<< 1 else 0) ||| (if fr.w then 1 else 0),
      ((fr.receive_sequence &&& 0b0111) <<< 5) |||
        (if fr.command_response = CommandResponse.response then 1 <<< 4 else 0) |||
        ((fr.send_sequence &&& 0b0111) <<< 1),
      fr.rejected_control_field_raw]
  | .unnumberedInformation ui =>
    (0b00000011 ||| (if ui.poll_or_final then 1 <<< 4 else 0)) ::
      ui.pid.to_byte :: ui.info
  | .unknownContent uc => uc.raw

/-- Embedding of parse_i_frame (frame.rs). -/
def parse_i_frame (bytes : List Nat) : Except FrameParseError FrameContent :=
  if bytes.length < 2 then .error .missingPidField
  else
    .ok (.information
      { receive_sequence := (bytes.getD 0 0 &&& 0b11100000) >>> 5
        send_sequence := (bytes.getD 0 0 &&& 0b00001110) >>> 1
        poll := bytes.getD 0 0 &&& 0b00010000 != 0
        pid := ProtocolIdentifier.from_byte (bytes.getD 1 0)
        info := bytes.drop 2 })

/-- Embedding of parse_s_frame (frame.rs). -/
def parse_s_frame (bytes : List Nat) : Except FrameParseError FrameContent :=
  if bytes.getD 0 0 &&& 0b00001111 = 0b00000001 then
    .ok (.receiveReady
      { receive_sequence := (bytes.getD 0 0 &&& 0b11100000) >>> 5
        poll_or_final := bytes.getD 0 0 &&& 0b00010000 != 0 })
  else if bytes.getD 0 0 &&& 0b00001111 = 0b00000101 then
    .ok (.receiveNotReady
      { receive_sequence := (bytes.getD 0 0 &&& 0b11100000) >>> 5
        poll_or_final := bytes.getD 0 0 &&& 0b00010000 != 0 })
  else if bytes.getD 0 0 &&& 0b00001111 = 0b00001001 then
    .ok (.reject
      { receive_sequence := (bytes.getD 0 0 &&& 0b11100000) >>> 5
        poll_or_final := bytes.getD 0 0 &&& 0b00010000 != 0 })
  else .error .unrecognisedSFieldType

/-- Embedding of parse_ui_frame (frame.rs). -/
def parse_ui_frame (bytes : List Nat) : Except FrameParseError FrameContent :=
  if bytes.length < 2 then .error .missingPidField
  else
    .ok (.unnumberedInformation
      { poll_or_final := bytes.getD 0 0 &&& 0b00010000 != 0
        pid := ProtocolIdentifier.from_byte (bytes.getD 1 0)
        info := bytes.drop 2 })

/-- Embedding of parse_frmr_frame (frame.rs). -/
def parse_frmr_frame (bytes : List Nat) : Except FrameParseError FrameContent :=
  if bytes.length ≠ 4 then .error .wrongSizeFrmrInfo
  else
    .ok (.frameReject
      { final_bit := bytes.getD 0 0 &&& 0b00010000 != 0
        rejected_control_field_raw := bytes.getD 3 0
        z := bytes.getD 1 0 &&& 0b00001000 != 0
        y := bytes.getD 1 0 &&& 0b00000100 != 0
        x := bytes.getD 1 0 &&& 0b00000010 != 0
        w := bytes.getD 1 0 &&& 0b00000001 != 0
        receive_sequence := (bytes.getD 2 0 &&& 0b11100000) >>> 5
        command_response :=
          if bytes.getD 2 0 &&& 0b00010000 != 0 then CommandResponse.response
          else CommandResponse.command
        send_sequence := (bytes.getD 2 0 &&& 0b00001110) >>> 1 })

/-- Embedding of parse_u_frame (frame.rs): the P/F bit is masked out
before identifying the sub-type. -/
def parse_u_frame (bytes : List Nat) : Except FrameParseError FrameContent :=
  if bytes.getD 0 0 &&& 0b11101111 = 0b00101111 then
    .ok (.setAsynchronousBalancedMode { poll := bytes.getD 0 0 &&& 0b00010000 != 0 })
  else if bytes.getD 0 0 &&& 0b11101111 = 0b01000011 then
    .ok (.disconnect { poll := bytes.getD 0 0 &&& 0b00010000 != 0 })
  else if bytes.getD 0 0 &&& 0b11101111 = 0b00001111 then
    .ok (.disconnectedMode { final_bit := bytes.getD 0 0 &&& 0b00010000 != 0 })
  else if bytes.getD 0 0 &&& 0b11101111 = 0b01100011 then
    .ok (.unnumberedAcknowledge { final_bit := bytes.getD 0 0 &&& 0b00010000 != 0 })
  else if bytes.getD 0 0 &&& 0b11101111 = 0b10000111 then
    parse_frmr_frame bytes
  else if bytes.getD 0 0 &&& 0b11101111 = 0b00000011 then
    parse_ui_frame bytes
  else .error .unrecognisedUFieldType

/-- Embedding of parse_content (frame.rs): classify on the low bits of
the control octet.  The final arm (unknown content) is unreachable
because the three tests are exhaustive over the two low bits. -/
def parse_content (bytes : List Nat) : Except FrameParseError FrameContent :=
  if bytes.isEmpty then .error .contentZeroLength
  else if bytes.getD 0 0 &&& 0x01 = 0x00 then parse_i_frame bytes
  else if bytes.getD 0 0 &&& 0x03 = 0x01 then parse_s_frame bytes
  else if bytes.getD 0 0 &&& 0x03 = 0x03 then parse_u_frame bytes
  else .ok (.unknownContent { raw := bytes })

/-! ## Frame assembler (frame.rs, Ax25Frame) -/

/-- A single hop in the frame's route (frame.rs, RouteEntry). -/
structure RouteEntry where
  repeater : Address
  has_repeated : Bool
deriving DecidableEq, Repr

/-- Embedding of the Ax25Frame struct (frame.rs). -/
structure Ax25Frame where
  source : Address
  destination : Address
  route : List RouteEntry
  command_or_response : Option CommandResponse
  content : FrameContent
deriving DecidableEq, Repr

/-- Model of Iterator::position on a byte slice. -/
def position (p : Nat → Bool) : List Nat → Option Nat
  | [] => Option.none
  | c :: rest => if p c then some 0 else (position p rest).map (· + 1)

/-- The subslice bytes[start..stop] of a byte slice. -/
def subslice (bytes : List Nat) (start stop : Nat) : List Nat :=
  (bytes.drop start).take (stop - start)

/-- The repeater-parsing loop of Ax25Frame::from_bytes: reads the given
number of 7-octet repeater entries starting at base, each one's
has_repeated flag taken from the C bit of the parsed address. -/
def parse_route (bytes : List Nat) : Nat → Nat → Except FrameParseError (List RouteEntry)
  | _, 0 => .ok []
  | base, k + 1 =>
    match parse_address (subslice bytes base (base + 7)) with
    | .error e => .error e
    | .ok repeater =>
      match parse_route bytes (base + 7) k with
      | .error e => .error e
      | .ok rest => .ok ({ repeater := repeater, has_repeated := repeater.c_bit } :: rest)

/-- Derivation of the command_or_response field from the two C bits
(frame.rs, from_bytes). -/
def derive_cor (dest_c src_c : Bool) : Option CommandResponse :=
  match dest_c, src_c with
  | true, false => some .command
  | false, true => some .response
  | _, _ => Option.none

/-- Embedding of Ax25Frame::from_bytes (frame.rs). -/
def Ax25Frame.from_bytes (bytes : List Nat) : Except FrameParseError Ax25Frame :=
  match position (fun c => c != 0) bytes with
  | Option.none => .error .onlyNullBytes
  | some addr_start =>
    match position (fun c => c &&& 0x01 == 0x01) bytes with
    | Option.none => .error .noEndToAddressField
    | some addr_end =>
      if addr_end - addr_start + 1 < 14 then
        .error (.addressFieldTooShort addr_start addr_end)
      else if bytes.length ≤ addr_end + 1 then
        .error (.frameTooShort bytes.length)
      else
        match parse_address (subslice bytes addr_start (addr_start + 7)) with
        | .error e => .error e
        | .ok dest =>
          match parse_address (subslice bytes (addr_start + 7) (addr_start + 14)) with
          | .error e => .error e
          | .ok src =>
            match parse_route bytes (addr_start + 14) ((addr_end + 1 - addr_start - 14) / 7) with
            | .error e => .error e
            | .ok route =>
              match parse_content (bytes.drop (addr_end + 1)) with
              | .error e => .error e
              | .ok content =>
                .ok { source := src
                      destination := dest
                      route := route
                      command_or_response := derive_cor dest.c_bit src.c_bit
                      content := content }

/-- The repeater-encoding loop of Ax25Frame::to_bytes: the final entry
in the route is marked final-in-address. -/
def encode_route : List RouteEntry → List Nat
  | [] => []
  | [entry] => entry.repeater.to_bytes entry.has_repeated true
  | entry :: rest => entry.repeater.to_bytes entry.has_repeated false ++ encode_route rest

/-- Embedding of Ax25Frame::to_bytes (frame.rs).  A command_or_response
of none is encoded as Command. -/
def Ax25Frame.to_bytes (f : Ax25Frame) : List Nat :=
  let bits : Bool × Bool :=
    match f.command_or_response with
    | some .command => (true, false)
    | some .response => (false, true)
    | _ => (true, false)
  f.destination.to_bytes bits.1 false ++
    f.source.to_bytes bits.2 f.route.isEmpty ++
    encode_route f.route ++
    f.content.encode

/-- Whether the content is the UnknownContent placeholder. -/
def FrameContent.isUnknown : FrameContent → Prop
  | .unknownContent _ => True
  | _ => False

instance (c : FrameContent) : Decidable c.isUnknown := by
  unfold FrameContent.isUnknown
  cases c <;> infer_instance

/-- The content region with its PID octet (present only in I and UI
frames) re-encoded canonically: this is the identity except that an
octet of the Layer3Impl family becomes 0x10.  Used to state the C1
round-trip law "re-encoding yields the input except for the documented
Layer3Impl canonicalization". -/
def canon_content : List Nat → List Nat
  | c :: p :: rest =>
    if c &&& 0x01 = 0x00 ∨ (c &&& 0x03 = 0x03 ∧ c &&& 0b11101111 = 0b00000011) then
      c :: (ProtocolIdentifier.from_byte p).to_byte :: rest
    else c :: p :: rest
  | l => l

/-- s is the index of the first non-zero byte of B. -/
def first_nonzero (B : List Nat) (s : Nat) : Prop :=
  s < B.length ∧ B.getD s 0 ≠ 0 ∧ ∀ j < s, B.getD j 0 = 0

instance (B : List Nat) (s : Nat) : Decidable (first_nonzero B s) := by
  unfold first_nonzero; infer_instance

/-- e is the index of the first byte of B with its low bit set. -/
def first_low_bit (B : List Nat) (e : Nat) : Prop :=
  e < B.length ∧ B.getD e 0 &&& 0x01 = 1 ∧ ∀ j < e, B.getD j 0 &&& 0x01 = 0

instance (B : List Nat) (e : Nat) : Decidable (first_low_bit B e) := by
  unfold first_low_bit; infer_instance

/-- The conditions under which the content region re-encodes to itself
(up to PID canonicalization): S frames and the four payload-free U
frames carry nothing after the control octet, and the reserved bits of
the FRMR information field are clear.  I and UI frames need no
condition. -/
def content_exact : List Nat → Prop
  | [] => True
  | c :: rest =>
    if c &&& 0x01 = 0x00 then True
    else if c &&& 0x03 = 0x01 then rest = []
    else if c &&& 0b11101111 = 0b00000011 then True
    else if c &&& 0b11101111 = 0b10000111 then
      rest.getD 0 0 &&& 0xF0 = 0 ∧ rest.getD 1 0 &&& 0x01 = 0
    else rest = []

instance (l : List Nat) : Decidable (content_exact l) := by
  unfold content_exact
  cases l with
  | nil => infer_instance
  | cons c rest => dsimp only; infer_instance

end Ax25

namespace Ax25

/-- C5: the protocol identifier codec.  Octets in the Layer3Impl range
decode to layer3Impl (which re-encodes canonically to 0x10); every other
octet decodes either to its named table variant or to unknown, and
re-encodes to itself.  Includes the concrete values named by the spec. -/
theorem c5_pid_codec :
    (∀ b : Nat, b < 256 →
      (layer3Range b → ProtocolIdentifier.from_byte b = .layer3Impl) ∧
      (¬ layer3Range b →
        (ProtocolIdentifier.from_byte b).to_byte = b ∧
        (b ∉ pidTableOctets → ProtocolIdentifier.from_byte b = .unknown b))) ∧
    ProtocolIdentifier.to_byte .layer3Impl = 0x10 ∧
    ProtocolIdentifier.from_byte 0x01 = .x25Plp ∧
    ProtocolIdentifier.from_byte 0x06 = .compressedTcpIp ∧
    ProtocolIdentifier.from_byte 0x07 = .uncompressedTcpIp ∧
    ProtocolIdentifier.from_byte 0x08 = .segmentationFragment ∧
    ProtocolIdentifier.from_byte 0xC3 = .texnetDatagram ∧
    ProtocolIdentifier.from_byte 0xC4 = .linkQuality ∧
    ProtocolIdentifier.from_byte 0xCA = .appletalk ∧
    ProtocolIdentifier.from_byte 0xCB = .appletalkArp ∧
    ProtocolIdentifier.from_byte 0xCC = .arpaIp ∧
    ProtocolIdentifier.from_byte 0xCD = .arpaAddress ∧
    ProtocolIdentifier.from_byte 0xCE = .flexnet ∧
    ProtocolIdentifier.from_byte 0xCF = .netRom ∧
    ProtocolIdentifier.from_byte 0xF0 = .none ∧
    ProtocolIdentifier.from_byte 0xFF = .escape ∧
    ProtocolIdentifier.from_byte 0x10 = .layer3Impl ∧
    ProtocolIdentifier.from_byte 0x20 = .layer3Impl ∧
    ProtocolIdentifier.from_byte 0xA5 = .layer3Impl ∧
    ProtocolIdentifier.from_byte 0x45 = .unknown 0x45 := by
  refine ⟨?_, by decide⟩
  decide

/-- Witness for C5 at concrete octets 0xA5 (in the Layer3Impl range) and
0x45 (neither in the range nor in the table). -/
theorem c5_pid_codec_witness :
    ProtocolIdentifier.from_byte 0xA5 = .layer3Impl ∧
    (ProtocolIdentifier.from_byte 0x45).to_byte = 0x45 := by
  refine ⟨(c5_pid_codec.1 0xA5 (by decide)).1 (by decide), ?_⟩
  exact ((c5_pid_codec.1 0x45 (by decide)).2 (by decide)).1

/-- C2: the transmit path performs no byte-stuffing, so a payload that
contains a FEND octet does not survive the send/extract round trip.  At
payload [0x01, 0xC0, 0x02] the transmitted sequence embeds the raw 0xC0
and the receive extraction returns [0x00, 0x01] instead of the payload. -/
theorem c2_transmit_not_stuffed :
    send_frame_bytes [0x01, 0xC0, 0x02] = [0xC0, 0x00, 0x01, 0xC0, 0x02, 0xC0] ∧
    (make_frame_from_buffer (send_frame_bytes [0x01, 0xC0, 0x02])).1 = some [0x00, 0x01] ∧
    some [0x00, 0x01] ≠ some [0x01, 0xC0, 0x02] := by
  decide

/-- Every successful commit of the KISS scanning loop happens at an index
carrying a FEND octet, with a non-empty accumulated frame. -/
theorem kiss_scan_commit (l : List Nat) :
    ∀ idx st acc n fr, kiss_scan l idx st acc = some (n, fr) →
      fr ≠ [] ∧ idx ≤ n ∧ n - idx < l.length ∧ l.getD (n - idx) 0 = FEND := by
  induction l with
  | nil => intro idx st acc n fr h; simp [kiss_scan] at h
  | cons c rest ih =>
    intro idx st acc n fr h
    have step :
        ∀ idx' st' acc', kiss_scan rest idx' st' acc' = some (n, fr) → idx' = idx + 1 →
          fr ≠ [] ∧ idx ≤ n ∧ n - idx < (c :: rest).length ∧
            (c :: rest).getD (n - idx) 0 = FEND := by
      intro idx' st' acc' h' hidx
      subst hidx
      obtain ⟨hfr, hle, hlt, hg⟩ := ih _ _ _ _ _ h'
      refine ⟨hfr, by omega, by simp only [List.length_cons]; omega, ?_⟩
      have hsplit : n - idx = (n - (idx + 1)) + 1 := by omega
      rw [hsplit]
      simpa using hg
    have commit :
        ∀ hc : c = FEND, ∀ hacc : acc ≠ [], some (idx, acc) = some (n, fr) →
          fr ≠ [] ∧ idx ≤ n ∧ n - idx < (c :: rest).length ∧
            (c :: rest).getD (n - idx) 0 = FEND := by
      intro hc hacc heq
      injection heq with heq
      injection heq with h1 h2
      subst h1; subst h2
      simp [hc, hacc]
    cases st with
    | lookingForStartMarker =>
      simp only [kiss_scan] at h
      split_ifs at h with h1
      · exact step _ _ _ h rfl
      · exact step _ _ _ h rfl
    | data =>
      simp only [kiss_scan] at h
      split_ifs at h with h1 h2 h3
      · exact commit h1 h2 h
      · exact step _ _ _ h rfl
      · exact step _ _ _ h rfl
      · exact step _ _ _ h rfl
    | escaped =>
      simp only [kiss_scan] at h
      split_ifs at h with h1 h2 h3
      · exact step _ _ _ h rfl
      · exact step _ _ _ h rfl
      · exact commit h3.1 h3.2 h
      · exact step _ _ _ h rfl

/-- C3: commit semantics of make_frame_from_buffer.  A returned frame is
never empty; the buffer is drained up to but not including the FEND that
terminated the frame, so the residual buffer is that FEND followed by
exactly the bytes after it; when no frame is returned the buffer is
unchanged; and on [C0 01 02 C0] the frame is [01 02] with residue [C0]. -/
theorem c3_commit_semantics (buffer : List Nat) :
    (∀ fr b2, make_frame_from_buffer buffer = (some fr, b2) →
      fr ≠ [] ∧ ∃ n, 0 < n ∧ n < buffer.length ∧ buffer.getD n 0 = FEND ∧
        b2 = FEND :: buffer.drop (n + 1)) ∧
    (∀ b2, make_frame_from_buffer buffer = (Option.none, b2) → b2 = buffer) ∧
    make_frame_from_buffer [0xC0, 0x01, 0x02, 0xC0] = (some [0x01, 0x02], [0xC0]) := by
  refine ⟨?_, ?_, by decide⟩
  · intro fr b2 h
    unfold make_frame_from_buffer at h
    cases hscan : kiss_scan buffer 0 .lookingForStartMarker [] with
    | none => rw [hscan] at h; simp at h
    | some p =>
      obtain ⟨n, f⟩ := p
      rw [hscan] at h
      by_cases hn : n = 0
      · simp [hn] at h
      · simp only [hn, if_false, Prod.mk.injEq, Option.some.injEq] at h
        obtain ⟨hf, hb⟩ := h
        obtain ⟨hfr, -, hlt, hg⟩ := kiss_scan_commit buffer 0 .lookingForStartMarker [] n f hscan
        rw [Nat.sub_zero] at hlt hg
        refine ⟨hf ▸ hfr, n, Nat.pos_of_ne_zero hn, hlt, hg, ?_⟩
        have hdrop : buffer.drop n = buffer[n] :: buffer.drop (n + 1) :=
          List.drop_eq_getElem_cons hlt
        have hgetd : buffer[n] = FEND := by
          rw [← hg]
          exact (List.getD_eq_getElem buffer 0 hlt).symm
        rw [← hb, hdrop, hgetd]
  · intro b2 h
    unfold make_frame_from_buffer at h
    cases hscan : kiss_scan buffer 0 .lookingForStartMarker [] with
    | none => rw [hscan] at h; simp at h; exact h.symm
    | some p =>
      obtain ⟨n, f⟩ := p
      rw [hscan] at h
      by_cases hn : n = 0
      · simp [hn] at h; exact h.symm
      · simp [hn] at h

/-- Witness for C3 at the concrete buffer [C0 01 02 C0]. -/
theorem c3_commit_semantics_witness :
    [0x01, 0x02] ≠ ([] : List Nat) ∧
    ∃ n, 0 < n ∧ n < ([0xC0, 0x01, 0x02, 0xC0] : List Nat).length ∧
      ([0xC0, 0x01, 0x02, 0xC0] : List Nat).getD n 0 = FEND ∧
      [0xC0] = FEND :: ([0xC0, 0x01, 0x02, 0xC0] : List Nat).drop (n + 1) :=
  (c3_commit_semantics [0xC0, 0x01, 0x02, 0xC0]).1 [0x01, 0x02] [0xC0] (by decide)

/-- With enough fuel, the padding loop of Address::to_bytes terminates on
lists of length at most six and appends exactly the missing pad octets. -/
theorem pad_loop_reaches :
    ∀ (fuel : Nat) (l : List Nat), l.length ≤ 6 → 6 - l.length ≤ fuel →
      pad_loop fuel l = some (l ++ List.replicate (6 - l.length) 0x40) := by
  intro fuel
  induction fuel with
  | zero =>
    intro l h1 h2
    have h6 : l.length = 6 := by omega
    simp [pad_loop, h6]
  | succ n ih =>
    intro l h1 h2
    by_cases h : l.length = 6
    · simp [pad_loop, h]
    · have hlt : l.length < 6 := by omega
      have hlen : (l ++ [0x40]).length = l.length + 1 := by simp
      simp only [pad_loop, if_neg h]
      rw [ih (l ++ [0x40]) (by omega) (by omega)]
      rw [hlen, List.append_assoc]
      have hrep : 6 - l.length = (6 - (l.length + 1)) + 1 := by omega
      rw [hrep, List.replicate_succ]
      rfl

/-- A list of ASCII bytes is valid UTF-8, for any sufficient fuel. -/
theorem utf8ValidFuel_of_ascii :
    ∀ (fuel : Nat) (l : List Nat), (∀ b ∈ l, b ≤ 0x7F) → l.length ≤ fuel →
      utf8ValidFuel fuel l = true := by
  intro fuel
  induction fuel with
  | zero =>
    intro l h hl
    cases l with
    | nil => rfl
    | cons b rest => simp at hl
  | succ n ih =>
    intro l h hl
    cases l with
    | nil => rfl
    | cons b rest =>
      have hb : b ≤ 0x7F := h b (by simp)
      simp only [utf8ValidFuel, if_pos hb]
      exact ih rest (fun x hx => h x (by simp [hx])) (by simp at hl; omega)

/-- A list of ASCII bytes is valid UTF-8. -/
theorem utf8Valid_of_ascii (l : List Nat) (h : ∀ b ∈ l, b ≤ 0x7F) :
    utf8Valid l = true :=
  utf8ValidFuel_of_ascii l.length l h le_rfl

/-- Shifting a byte below 128 left by one (as a u8) and back right by one
recovers the byte. -/
theorem shl_mod_shr : ∀ b, b < 128 → ((b <<< 1) % 256) >>> 1 = b := by
  decide

/-- Field recovery from (and a bound on) the encoded SSID octet, for an
SSID within the data-model range. -/
theorem ssid_octet_fields :
    ∀ s, s < 16 → ∀ (hb fa : Bool),
      (((((s <<< 1) % 256) ||| 0x60 ||| (if hb then 0x80 else 0) |||
        (if fa then 0x01 else 0)) >>> 1) &&& 0x0F = s) ∧
      ((((s <<< 1) % 256) ||| 0x60 ||| (if hb then 0x80 else 0) |||
        (if fa then 0x01 else 0)) &&& 0x80 != 0) = hb ∧
      (((s <<< 1) % 256) ||| 0x60 ||| (if hb then 0x80 else 0) |||
        (if fa then 0x01 else 0)) < 256 := by
  decide

/-- Dropping leading spaces past a block of spaces continues in the rest
of the list. -/
theorem dropWhile_replicate_space (k : Nat) (l : List Nat) :
    (List.replicate k 0x20 ++ l).dropWhile (fun c => c == 0x20) =
      l.dropWhile (fun c => c == 0x20) := by
  induction k with
  | zero => simp
  | succ n ih => simpa [List.replicate_succ, List.dropWhile_cons] using ih

/-- dropWhile is the identity when the head fails the predicate. -/
theorem dropWhile_head_not_space (x : Nat) (xs : List Nat) (h : x ≠ 0x20) :
    (x :: xs).dropWhile (fun c => c == 0x20) = x :: xs := by
  simp [List.dropWhile_cons, h]

/-- C9: for a callsign of at most six bytes, the padding loop of
Address::to_bytes terminates (fuel 6 suffices, the loop reaching length
exactly 6), and the encoded address is exactly seven octets: the shifted
callsign bytes, space padding, and the packed SSID octet. -/
theorem c9_to_bytes_seven (a : Address) (hb fa : Bool)
    (hlen : a.callsign.length ≤ 6) :
    pad_loop 6 (a.callsign.map (fun b => (b <<< 1) % 256)) =
      some (a.callsign.map (fun b => (b <<< 1) % 256) ++
        List.replicate (6 - a.callsign.length) 0x40) ∧
    a.to_bytes hb fa =
      a.callsign.map (fun b => (b <<< 1) % 256) ++
        List.replicate (6 - a.callsign.length) 0x40 ++
        [((a.ssid <<< 1) % 256) ||| 0x60 ||| (if hb then 0x80 else 0) |||
          (if fa then 0x01 else 0)] ∧
    (a.to_bytes hb fa).length = 7 := by
  have hmaplen : (a.callsign.map (fun b => (b <<< 1) % 256)).length = a.callsign.length := by
    simp
  refine ⟨?_, ?_, ?_⟩
  · rw [pad_loop_reaches 6 _ (by omega) (by omega), hmaplen]
  · simp [Address.to_bytes]
  · simp [Address.to_bytes]
    omega

/-- Witness for C9 at callsign "ID" (two bytes), ssid 5. -/
theorem c9_to_bytes_seven_witness :
    pad_loop 6 ((Address.mk [0x49, 0x44] 5 false).callsign.map (fun b => (b <<< 1) % 256)) =
      some ((Address.mk [0x49, 0x44] 5 false).callsign.map (fun b => (b <<< 1) % 256) ++
        List.replicate (6 - (Address.mk [0x49, 0x44] 5 false).callsign.length) 0x40) ∧
    (Address.mk [0x49, 0x44] 5 false).to_bytes true false =
      (Address.mk [0x49, 0x44] 5 false).callsign.map (fun b => (b <<< 1) % 256) ++
        List.replicate (6 - (Address.mk [0x49, 0x44] 5 false).callsign.length) 0x40 ++
        [(((Address.mk [0x49, 0x44] 5 false).ssid <<< 1) % 256) ||| 0x60 |||
          (if true then 0x80 else 0) ||| (if false then 0x01 else 0)] ∧
    ((Address.mk [0x49, 0x44] 5 false).to_bytes true false).length = 7 :=
  c9_to_bytes_seven (Address.mk [0x49, 0x44] 5 false) true false (by decide)

/-- parse_address succeeds on any list of octets, returning the stripped
shifted callsign and the unpacked SSID octet fields. -/
theorem parse_address_ok (l : List Nat) (h256 : ∀ b ∈ l, b < 256) :
    parse_address l = .ok
      { callsign :=
          (((l.take 6).reverse.map (fun c => c >>> 1)).dropWhile (fun c => c == 0x20)).reverse
        ssid := (l.getD 6 0 >>> 1) &&& 0x0F
        c_bit := l.getD 6 0 &&& 0x80 != 0 } := by
  have hascii : ∀ b ∈
      (((l.take 6).reverse.map (fun c => c >>> 1)).dropWhile (fun c => c == 0x20)).reverse,
      b ≤ 0x7F := by
    intro b hb
    rw [List.mem_reverse] at hb
    have hb2 := (List.dropWhile_sublist (fun c : Nat => c == 0x20)).subset hb
    rw [List.mem_map] at hb2
    obtain ⟨c, hc, rfl⟩ := hb2
    rw [List.mem_reverse] at hc
    have := h256 c (List.take_subset 6 l hc)
    omega
  unfold parse_address
  rw [if_pos (utf8Valid_of_ascii _ hascii)]

/-- C4: encoding a well-formed Address (callsign of one to six uppercase
alphanumeric ASCII bytes, SSID at most 15) and parsing the result
recovers the same callsign and SSID, with c_bit equal to the chosen
high bit, for every choice of high_bit and final_in_address. -/
theorem c4_address_round_trip (a : Address) (hb fa : Bool)
    (hlen1 : 1 ≤ a.callsign.length) (hlen6 : a.callsign.length ≤ 6)
    (halnum : ∀ b ∈ a.callsign, uppercaseAlnumByte b) (hssid : a.ssid ≤ 15) :
    parse_address (a.to_bytes hb fa) =
      .ok { callsign := a.callsign, ssid := a.ssid, c_bit := hb } := by
  have h128 : ∀ b ∈ a.callsign, b < 128 := by
    intro b hbm
    rcases halnum b hbm with h | h <;> omega
  have hmaplen : (a.callsign.map (fun b => (b <<< 1) % 256)).length = a.callsign.length := by
    simp
  have hpadlen :
      (a.callsign.map (fun b => (b <<< 1) % 256) ++
        List.replicate (6 - a.callsign.length) 0x40).length = 6 := by
    simp
    omega
  have hbytes : a.to_bytes hb fa =
      (a.callsign.map (fun b => (b <<< 1) % 256) ++
        List.replicate (6 - a.callsign.length) 0x40) ++
        [((a.ssid <<< 1) % 256) ||| 0x60 ||| (if hb then 0x80 else 0) |||
          (if fa then 0x01 else 0)] := by
    simp [Address.to_bytes]
  have htake : (a.to_bytes hb fa).take 6 =
      a.callsign.map (fun b => (b <<< 1) % 256) ++
        List.replicate (6 - a.callsign.length) 0x40 := by
    rw [hbytes]
    exact List.take_left' hpadlen
  have hgetd : (a.to_bytes hb fa).getD 6 0 =
      ((a.ssid <<< 1) % 256) ||| 0x60 ||| (if hb then 0x80 else 0) |||
        (if fa then 0x01 else 0) := by
    rw [hbytes, List.getD_append_right _ _ _ _ (by omega), hpadlen]
    rfl
  have hstrip :
      (((a.to_bytes hb fa).take 6).reverse.map (fun c => c >>> 1)).dropWhile
          (fun c => c == 0x20) = a.callsign.reverse := by
    rw [htake, List.reverse_append, List.reverse_replicate, List.map_append,
      List.map_replicate]
    have hshr : (a.callsign.map (fun b => (b <<< 1) % 256)).reverse.map
        (fun c => c >>> 1) = a.callsign.reverse := by
      rw [← List.map_reverse, List.map_map]
      calc a.callsign.reverse.map ((fun c => c >>> 1) ∘ fun b => (b <<< 1) % 256)
          = a.callsign.reverse.map id := by
            apply List.map_congr_left
            intro x hx
            rw [List.mem_reverse] at hx
            exact shl_mod_shr x (h128 x hx)
        _ = a.callsign.reverse := List.map_id a.callsign.reverse
    rw [hshr]
    have h32 : (64 : Nat) >>> 1 = 32 := rfl
    rw [h32, dropWhile_replicate_space]
    obtain ⟨x, xs, hx⟩ : ∃ x xs, a.callsign.reverse = x :: xs := by
      cases hrev : a.callsign.reverse with
      | nil =>
        exfalso
        have : a.callsign = [] := by
          simpa using congrArg List.reverse hrev
        rw [this] at hlen1
        simp at hlen1
      | cons x xs => exact ⟨x, xs, rfl⟩
    rw [hx]
    apply dropWhile_head_not_space
    have hxmem : x ∈ a.callsign := by
      rw [← List.mem_reverse, hx]
      simp
    rcases halnum x hxmem with h | h <;> omega
  have h256 : ∀ b ∈ a.to_bytes hb fa, b < 256 := by
    intro b hbm
    rw [hbytes] at hbm
    simp only [List.mem_append, List.mem_map, List.mem_replicate,
      List.mem_singleton] at hbm
    rcases hbm with (⟨c, _, rfl⟩ | ⟨_, rfl⟩) | rfl
    · exact Nat.mod_lt _ (by norm_num)
    · norm_num
    · exact (ssid_octet_fields a.ssid (by omega) hb fa).2.2
  rw [parse_address_ok _ h256]
  congr 1
  have hcs : (((((a.to_bytes hb fa).take 6).reverse.map (fun c => c >>> 1)).dropWhile
      (fun c => c == 0x20)).reverse) = a.callsign := by
    rw [hstrip, List.reverse_reverse]
  rw [hcs, hgetd]
  have hf := ssid_octet_fields a.ssid (by omega) hb fa
  rw [hf.1, hf.2.1]

/-- Witness for C4 at the address VK7NTK-1, with high_bit set and
final_in_address set. -/
theorem c4_address_round_trip_witness :
    parse_address ((Address.mk [0x56, 0x4B, 0x37, 0x4E, 0x54, 0x4B] 1 false).to_bytes true true) =
      .ok { callsign := [0x56, 0x4B, 0x37, 0x4E, 0x54, 0x4B], ssid := 1, c_bit := true } :=
  c4_address_round_trip (Address.mk [0x56, 0x4B, 0x37, 0x4E, 0x54, 0x4B] 1 false) true true
    (by decide) (by decide) (by decide) (by decide)

/-- ASCII uppercasing preserves alphanumericity. -/
theorem alnum_upper_iff (c : Nat) :
    rust_is_alphanumeric (rust_to_uppercase c) = true ↔ rust_is_alphanumeric c = true := by
  unfold rust_is_alphanumeric rust_to_uppercase
  split_ifs with h <;> simp <;> omega

/-- The uppercased callsign is alphanumeric exactly when the raw part is. -/
theorem all_alnum_upper (p : List Nat) :
    ((p.map rust_to_uppercase).all rust_is_alphanumeric = true) ↔
      (∀ c ∈ p, rust_is_alphanumeric c = true) := by
  rw [List.all_map, List.all_eq_true]
  constructor
  · intro h c hc
    exact (alnum_upper_iff c).mp (h c hc)
  · intro h c hc
    exact (alnum_upper_iff c).mpr (h c hc)

/-- Exhaustive evaluation of Address::from_str by the conditions it
checks: format failure, unparseable SSID, out-of-range SSID, success. -/
theorem from_str_eval (s : List Nat) :
    (¬((split_on_dash s).length = 2 ∧ callsign_ok ((split_on_dash s).getD 0 [])) →
      Address.from_str s = .error .invalidFormat) ∧
    ((split_on_dash s).length = 2 → callsign_ok ((split_on_dash s).getD 0 []) →
      (parse_u8 ((split_on_dash s).getD 1 []) = Option.none →
        Address.from_str s = .error .invalidSsid) ∧
      (∀ n, parse_u8 ((split_on_dash s).getD 1 []) = some n →
        (15 < n → Address.from_str s = .error .ssidOutOfRange) ∧
        (n ≤ 15 → Address.from_str s =
          .ok { callsign := ((split_on_dash s).getD 0 []).map rust_to_uppercase,
                ssid := n, c_bit := false }))) := by
  have hallmap : ∀ p : List Nat,
      (∀ c ∈ p.map rust_to_uppercase, rust_is_alphanumeric c = true) ↔
        (∀ c ∈ p, rust_is_alphanumeric c = true) := by
    intro p
    rw [← List.all_eq_true]
    exact all_alnum_upper p
  constructor
  · intro h
    by_cases hlen : (split_on_dash s).length = 2
    · have hcs : ¬ callsign_ok ((split_on_dash s).getD 0 []) := fun hc => h ⟨hlen, hc⟩
      rw [Address.from_str, if_neg (by omega : ¬(split_on_dash s).length ≠ 2)]
      by_cases h1 : (split_on_dash s).getD 0 [] = []
      · rw [if_pos (Or.inl (by rw [h1]; rfl))]
      by_cases h2 : 6 < ((split_on_dash s).getD 0 []).length
      · rw [if_pos (Or.inr (by rw [List.length_map]; exact h2))]
      have h3 : ¬ ∀ c ∈ (split_on_dash s).getD 0 [], rust_is_alphanumeric c = true := by
        intro hall
        exact hcs ⟨h1, by omega, hall⟩
      rw [if_neg ?hc2, if_pos ?hc3]
      case hc2 =>
        rintro (hmap | hlong)
        · exact h1 (by simpa using hmap)
        · rw [List.length_map] at hlong
          exact h2 hlong
      case hc3 =>
        intro hall
        exact h3 ((hallmap _).mp hall)
    · rw [Address.from_str, if_pos hlen]
  · intro hlen hok
    obtain ⟨hne, hle, hal⟩ := hok
    have hbase : Address.from_str s =
        match parse_u8 ((split_on_dash s).getD 1 []) with
        | Option.none => .error .invalidSsid
        | some ssid =>
          if 15 < ssid then .error .ssidOutOfRange
          else .ok { callsign := ((split_on_dash s).getD 0 []).map rust_to_uppercase,
                     ssid := ssid, c_bit := false } := by
      rw [Address.from_str, if_neg (by omega : ¬(split_on_dash s).length ≠ 2),
        if_neg ?hc2, if_neg ?hc3]
      case hc2 =>
        rintro (hmap | hlong)
        · exact hne (by simpa using hmap)
        · rw [List.length_map] at hlong
          omega
      case hc3 =>
        intro hnall
        exact hnall ((hallmap _).mpr hal)
    constructor
    · intro hp
      rw [hbase, hp]
    · intro n hp
      constructor
      · intro hn
        rw [hbase, hp]
        exact if_pos hn
      · intro hn
        rw [hbase, hp]
        exact if_neg (by omega)

/-- C8: characterization of Address::from_str.  Parsing succeeds exactly
when the string splits on the dash into two parts, the first being a
non-empty alphanumeric part of at most six characters and the second
parsing as a u8 of at most 15; on success the callsign is the uppercased
first part, the ssid the parsed number and c_bit false; the three error
kinds arise as described; and the four concrete examples of the spec
behave as stated. -/
theorem c8_from_str_spec (s : List Nat) (hascii : ∀ c ∈ s, c < 128) :
    ((∃ a, Address.from_str s = .ok a) ↔
      ((split_on_dash s).length = 2 ∧ callsign_ok ((split_on_dash s).getD 0 []) ∧
        ∃ n, parse_u8 ((split_on_dash s).getD 1 []) = some n ∧ n ≤ 15)) ∧
    (∀ a, Address.from_str s = .ok a →
      a.callsign = ((split_on_dash s).getD 0 []).map rust_to_uppercase ∧
      parse_u8 ((split_on_dash s).getD 1 []) = some a.ssid ∧
      a.c_bit = false) ∧
    (¬((split_on_dash s).length = 2 ∧ callsign_ok ((split_on_dash s).getD 0 [])) →
      Address.from_str s = .error .invalidFormat) ∧
    ((split_on_dash s).length = 2 → callsign_ok ((split_on_dash s).getD 0 []) →
      parse_u8 ((split_on_dash s).getD 1 []) = Option.none →
      Address.from_str s = .error .invalidSsid) ∧
    ((split_on_dash s).length = 2 → callsign_ok ((split_on_dash s).getD 0 []) →
      ∀ n, parse_u8 ((split_on_dash s).getD 1 []) = some n → 15 < n →
      Address.from_str s = .error .ssidOutOfRange) ∧
    Address.from_str [86, 75, 55, 78, 84, 75, 45, 49] =
      .ok { callsign := [86, 75, 55, 78, 84, 75], ssid := 1, c_bit := false } ∧
    Address.from_str [86, 75, 55, 78, 84, 75, 45, 49, 54] = .error .ssidOutOfRange ∧
    Address.from_str [45, 49] = .error .invalidFormat ∧
    Address.from_str [86, 75, 55, 78, 84, 75] = .error .invalidFormat := by
  obtain ⟨heval1, heval2⟩ := from_str_eval s
  refine ⟨?_, ?_, heval1, ?_, ?_, by rfl, by rfl, by rfl, by rfl⟩
  · constructor
    · rintro ⟨a, ha⟩
      by_cases hfmt : (split_on_dash s).length = 2 ∧ callsign_ok ((split_on_dash s).getD 0 [])
      · obtain ⟨hlen, hok⟩ := hfmt
        refine ⟨hlen, hok, ?_⟩
        cases hp : parse_u8 ((split_on_dash s).getD 1 []) with
        | none =>
          rw [(heval2 hlen hok).1 hp] at ha
          exact Except.noConfusion ha
        | some n =>
          by_cases hn : 15 < n
          · rw [((heval2 hlen hok).2 n hp).1 hn] at ha
            exact Except.noConfusion ha
          · exact ⟨n, rfl, by omega⟩
      · rw [heval1 hfmt] at ha
        exact Except.noConfusion ha
    · rintro ⟨hlen, hok, n, hp, hn⟩
      exact ⟨_, ((heval2 hlen hok).2 n hp).2 (by omega)⟩
  · intro a ha
    by_cases hfmt : (split_on_dash s).length = 2 ∧ callsign_ok ((split_on_dash s).getD 0 [])
    · obtain ⟨hlen, hok⟩ := hfmt
      cases hp : parse_u8 ((split_on_dash s).getD 1 []) with
      | none =>
        rw [(heval2 hlen hok).1 hp] at ha
        exact Except.noConfusion ha
      | some n =>
        by_cases hn : 15 < n
        · rw [((heval2 hlen hok).2 n hp).1 hn] at ha
          exact Except.noConfusion ha
        · rw [((heval2 hlen hok).2 n hp).2 (by omega)] at ha
          injection ha with ha
          rw [← ha]
          exact ⟨rfl, rfl, rfl⟩
    · rw [heval1 hfmt] at ha
      exact Except.noConfusion ha
  · intro hlen hok hp
    exact (heval2 hlen hok).1 hp
  · intro hlen hok n hp hn
    exact ((heval2 hlen hok).2 n hp).1 hn

/-- Witness for C8: parsing the concrete string VK7NTK-1. -/
theorem c8_from_str_spec_witness :
    Address.from_str [86, 75, 55, 78, 84, 75, 45, 49] =
      .ok { callsign := [86, 75, 55, 78, 84, 75], ssid := 1, c_bit := false } :=
  (c8_from_str_spec [86, 75, 55, 78, 84, 75, 45, 49] (by decide)).2.2.2.2.2.1

/-! ## Characterization of position and the from_bytes branches -/

/-- position finds nothing exactly when no element satisfies the
predicate. -/
theorem position_eq_none_iff (p : Nat → Bool) (l : List Nat) :
    position p l = Option.none ↔ ∀ x ∈ l, p x = false := by
  induction l with
  | nil => simp [position]
  | cons c rest ih =>
    by_cases h : p c
    · simp [position, h]
    · rw [position, if_neg h, Option.map_eq_none', ih]
      constructor
      · intro hall x hx
        rcases List.mem_cons.mp hx with rfl | hx2
        · exact (Bool.not_eq_true (p x)).mp h
        · exact hall x hx2
      · intro hall x hx
        exact hall x (List.mem_cons_of_mem c hx)

/-- position returns some i exactly when i is the first index satisfying
the predicate. -/
theorem position_eq_some_iff (p : Nat → Bool) :
    ∀ (l : List Nat) (i : Nat), position p l = some i ↔
      (i < l.length ∧ p (l.getD i 0) = true ∧ ∀ j < i, p (l.getD j 0) = false) := by
  intro l
  induction l with
  | nil => intro i; simp [position]
  | cons c rest ih =>
    intro i
    by_cases h : p c
    · simp only [position, if_pos h]
      constructor
      · intro hi
        injection hi with hi
        subst hi
        exact ⟨by simp, by simpa using h, by omega⟩
      · rintro ⟨hlen, hget, hfirst⟩
        cases i with
        | zero => rfl
        | succ i2 =>
          exact absurd h (by simpa using hfirst 0 (by omega))
    · simp only [position, if_neg h]
      constructor
      · intro hi
        rcases Option.map_eq_some'.mp hi with ⟨i2, hpos, rfl⟩
        obtain ⟨hlen, hget, hfirst⟩ := (ih i2).mp hpos
        refine ⟨by simp; omega, by simpa using hget, ?_⟩
        intro j hj
        cases j with
        | zero => simpa using (Bool.not_eq_true (p c)).mp h
        | succ j2 => simpa using hfirst j2 (by omega)
      · rintro ⟨hlen, hget, hfirst⟩
        cases i with
        | zero => exact absurd (by simpa using hget) h
        | succ i2 =>
          rw [Option.map_eq_some']
          refine ⟨i2, (ih i2).mpr ⟨by simp at hlen; omega, by simpa using hget, ?_⟩, rfl⟩
          intro j hj
          simpa using hfirst (j + 1) (by omega)

/-- parse_address only ever fails with AddressInvalidUtf8. -/
theorem parse_address_error_set (l : List Nat) (e : FrameParseError)
    (h : parse_address l = .error e) : e = .addressInvalidUtf8 := by
  unfold parse_address at h
  split_ifs at h
  injection h with h
  exact h.symm

/-- parse_route only ever fails with AddressInvalidUtf8. -/
theorem parse_route_error_set (bytes : List Nat) :
    ∀ (k base : Nat) (e : FrameParseError),
      parse_route bytes base k = .error e → e = .addressInvalidUtf8 := by
  intro k
  induction k with
  | zero => intro base e h; exact absurd h (by simp [parse_route])
  | succ n ih =>
    intro base e h
    unfold parse_route at h
    cases ha : parse_address (subslice bytes base (base + 7)) with
    | error e2 =>
      rw [ha] at h
      injection h with h
      subst h
      exact parse_address_error_set _ _ ha
    | ok repeater =>
      rw [ha] at h
      cases hr : parse_route bytes (base + 7) n with
      | error e2 =>
        rw [hr] at h
        injection h with h
        subst h
        exact ih _ _ hr
      | ok rest => rw [hr] at h; exact absurd h (by simp)

/-- The error kind that parse_i_frame can produce. -/
theorem parse_i_frame_error_set (l : List Nat) (e : FrameParseError)
    (h : parse_i_frame l = .error e) : e = .missingPidField := by
  unfold parse_i_frame at h
  split_ifs at h
  · injection h with h; exact h.symm

/-- The error kind that parse_s_frame can produce. -/
theorem parse_s_frame_error_set (l : List Nat) (e : FrameParseError)
    (h : parse_s_frame l = .error e) : e = .unrecognisedSFieldType := by
  unfold parse_s_frame at h
  split_ifs at h <;> first
    | (injection h with h; exact h.symm)
    | exact absurd h (by simp)

/-- The error kind that parse_ui_frame can produce. -/
theorem parse_ui_frame_error_set (l : List Nat) (e : FrameParseError)
    (h : parse_ui_frame l = .error e) : e = .missingPidField := by
  unfold parse_ui_frame at h
  split_ifs at h
  · injection h with h; exact h.symm

/-- The error kind that parse_frmr_frame can produce. -/
theorem parse_frmr_frame_error_set (l : List Nat) (e : FrameParseError)
    (h : parse_frmr_frame l = .error e) : e = .wrongSizeFrmrInfo := by
  unfold parse_frmr_frame at h
  split_ifs at h
  · injection h with h; exact h.symm

/-- The error kinds that parse_u_frame can produce. -/
theorem parse_u_frame_error_set (l : List Nat) (e : FrameParseError)
    (h : parse_u_frame l = .error e) :
    e = .missingPidField ∨ e = .unrecognisedUFieldType ∨ e = .wrongSizeFrmrInfo := by
  unfold parse_u_frame at h
  split_ifs at h <;> first
    | exact Or.inl (parse_ui_frame_error_set _ _ h)
    | exact Or.inr (Or.inr (parse_frmr_frame_error_set _ _ h))
    | (injection h with h; exact Or.inr (Or.inl h.symm))
    | exact absurd h (by simp)

/-- The five error kinds that parse_content can produce. -/
theorem parse_content_error_set (l : List Nat) (e : FrameParseError)
    (h : parse_content l = .error e) :
    e = .contentZeroLength ∨ e = .missingPidField ∨ e = .unrecognisedSFieldType ∨
      e = .unrecognisedUFieldType ∨ e = .wrongSizeFrmrInfo := by
  unfold parse_content at h
  split_ifs at h <;> first
    | (injection h with h; subst h; tauto)
    | exact Or.inr (Or.inl (parse_i_frame_error_set _ _ h))
    | exact Or.inr (Or.inr (Or.inl (parse_s_frame_error_set _ _ h)))
    | (rcases parse_u_frame_error_set _ _ h with h2 | h2 | h2 <;> subst h2 <;> tauto)
    | exact absurd h (by simp)

/-- Shape of a successful Ax25Frame::from_bytes run. -/
theorem from_bytes_ok_inv (B : List Nat) (f : Ax25Frame)
    (h : Ax25Frame.from_bytes B = .ok f) :
    ∃ s e dest src route content,
      position (fun c => c != 0) B = some s ∧
      position (fun c => c &&& 0x01 == 0x01) B = some e ∧
      ¬(e - s + 1 < 14) ∧ ¬(B.length ≤ e + 1) ∧
      parse_address (subslice B s (s + 7)) = .ok dest ∧
      parse_address (subslice B (s + 7) (s + 14)) = .ok src ∧
      parse_route B (s + 14) ((e + 1 - s - 14) / 7) = .ok route ∧
      parse_content (B.drop (e + 1)) = .ok content ∧
      f = { source := src, destination := dest, route := route,
            command_or_response := derive_cor dest.c_bit src.c_bit,
            content := content } := by
  cases hs : position (fun c => c != 0) B with
  | none => simp only [Ax25Frame.from_bytes, hs] at h; simp at h
  | some s =>
    cases he : position (fun c => c &&& 0x01 == 0x01) B with
    | none => simp only [Ax25Frame.from_bytes, hs, he] at h; simp at h
    | some e =>
      simp only [Ax25Frame.from_bytes, hs, he] at h
      split_ifs at h with h1 h2
      cases hdest : parse_address (subslice B s (s + 7)) with
      | error e2 => simp only [hdest] at h; simp at h
      | ok dest =>
        simp only [hdest] at h
        cases hsrc : parse_address (subslice B (s + 7) (s + 14)) with
        | error e2 => simp only [hsrc] at h; simp at h
        | ok src =>
          simp only [hsrc] at h
          cases hroute : parse_route B (s + 14) ((e + 1 - s - 14) / 7) with
          | error e2 => simp only [hroute] at h; simp at h
          | ok route =>
            simp only [hroute] at h
            cases hcontent : parse_content (B.drop (e + 1)) with
            | error e2 => simp only [hcontent] at h; simp at h
            | ok content =>
              simp only [hcontent] at h
              injection h with h
              exact ⟨s, e, dest, src, route, content, rfl, rfl, h1, h2, hdest, hsrc,
                hroute, hcontent, h.symm⟩

/-- Shape of a failing Ax25Frame::from_bytes run: each error arises from
the branch that the source checks in order. -/
theorem from_bytes_error_inv (B : List Nat) (err : FrameParseError)
    (h : Ax25Frame.from_bytes B = .error err) :
    (position (fun c => c != 0) B = Option.none ∧ err = .onlyNullBytes) ∨
    (∃ s, position (fun c => c != 0) B = some s ∧
      position (fun c => c &&& 0x01 == 0x01) B = Option.none ∧
      err = .noEndToAddressField) ∨
    (∃ s e, position (fun c => c != 0) B = some s ∧
      position (fun c => c &&& 0x01 == 0x01) B = some e ∧
      e - s + 1 < 14 ∧ err = .addressFieldTooShort s e) ∨
    (∃ s e, position (fun c => c != 0) B = some s ∧
      position (fun c => c &&& 0x01 == 0x01) B = some e ∧
      ¬(e - s + 1 < 14) ∧ B.length ≤ e + 1 ∧ err = .frameTooShort B.length) ∨
    (∃ s e, position (fun c => c != 0) B = some s ∧
      position (fun c => c &&& 0x01 == 0x01) B = some e ∧
      ¬(e - s + 1 < 14) ∧ ¬(B.length ≤ e + 1) ∧
      (parse_address (subslice B s (s + 7)) = .error err ∨
       parse_address (subslice B (s + 7) (s + 14)) = .error err ∨
       parse_route B (s + 14) ((e + 1 - s - 14) / 7) = .error err ∨
       parse_content (B.drop (e + 1)) = .error err)) := by
  cases hs : position (fun c => c != 0) B with
  | none =>
    simp only [Ax25Frame.from_bytes, hs] at h
    injection h with h
    exact Or.inl ⟨rfl, h.symm⟩
  | some s =>
    cases he : position (fun c => c &&& 0x01 == 0x01) B with
    | none =>
      simp only [Ax25Frame.from_bytes, hs, he] at h
      injection h with h
      exact Or.inr (Or.inl ⟨s, rfl, rfl, h.symm⟩)
    | some e =>
      simp only [Ax25Frame.from_bytes, hs, he] at h
      split_ifs at h with h1 h2
      · injection h with h
        exact Or.inr (Or.inr (Or.inl ⟨s, e, rfl, rfl, h1, h.symm⟩))
      · injection h with h
        exact Or.inr (Or.inr (Or.inr (Or.inl ⟨s, e, rfl, rfl, h1, h2, h.symm⟩)))
      refine Or.inr (Or.inr (Or.inr (Or.inr ⟨s, e, rfl, rfl, h1, h2, ?_⟩)))
      cases hdest : parse_address (subslice B s (s + 7)) with
      | error e2 =>
        simp only [hdest] at h
        injection h with h
        subst h
        exact Or.inl rfl
      | ok dest =>
        simp only [hdest] at h
        cases hsrc : parse_address (subslice B (s + 7) (s + 14)) with
        | error e2 =>
          simp only [hsrc] at h
          injection h with h
          subst h
          exact Or.inr (Or.inl rfl)
        | ok src =>
          simp only [hsrc] at h
          cases hroute : parse_route B (s + 14) ((e + 1 - s - 14) / 7) with
          | error e2 =>
            simp only [hroute] at h
            injection h with h
            subst h
            exact Or.inr (Or.inr (Or.inl rfl))
          | ok route =>
            simp only [hroute] at h
            cases hcontent : parse_content (B.drop (e + 1)) with
            | error e2 =>
              simp only [hcontent] at h
              injection h with h
              subst h
              exact Or.inr (Or.inr (Or.inr rfl))
            | ok content => simp only [hcontent] at h; simp at h

/-- Bridging the nonzero iterator predicate to its proposition. -/
theorem bne_zero_false_iff (x : Nat) : ((x != 0) = false) ↔ x = 0 := by simp

/-- Bridging the low-bit iterator predicate to its proposition. -/
theorem low_bit_beq_false_iff (x : Nat) : ((x &&& 0x01 == 0x01) = false) ↔ x &&& 0x01 = 0 := by
  rw [beq_eq_false_iff_ne, ne_eq, Nat.and_one_is_mod]
  omega

/-- position with the nonzero predicate finds the first non-zero byte. -/
theorem position_nonzero_iff (B : List Nat) (s : Nat) :
    position (fun c => c != 0) B = some s ↔ first_nonzero B s := by
  rw [position_eq_some_iff]
  unfold first_nonzero
  constructor
  · rintro ⟨h1, h2, h3⟩
    exact ⟨h1, by simpa using h2, fun j hj => (bne_zero_false_iff _).mp (h3 j hj)⟩
  · rintro ⟨h1, h2, h3⟩
    exact ⟨h1, by simpa using h2, fun j hj => (bne_zero_false_iff _).mpr (h3 j hj)⟩

/-- position with the low-bit predicate finds the first odd byte. -/
theorem position_low_bit_iff (B : List Nat) (e : Nat) :
    position (fun c => c &&& 0x01 == 0x01) B = some e ↔ first_low_bit B e := by
  rw [position_eq_some_iff]
  unfold first_low_bit
  constructor
  · rintro ⟨h1, h2, h3⟩
    exact ⟨h1, by simpa using h2, fun j hj => (low_bit_beq_false_iff _).mp (h3 j hj)⟩
  · rintro ⟨h1, h2, h3⟩
    exact ⟨h1, by simpa using h2, fun j hj => (low_bit_beq_false_iff _).mpr (h3 j hj)⟩

/-- C6: the four structural error conditions of Ax25Frame::from_bytes,
checked in order: OnlyNullBytes exactly when every byte is zero;
NoEndToAddressField exactly when some byte is non-zero but none has its
low bit set; AddressFieldTooShort exactly when the first non-zero index
s and the first low-bit index e satisfy e - s + 1 < 14; FrameTooShort
exactly when the address field is long enough but no byte follows it. -/
theorem c6_error_conditions (B : List Nat) :
    (Ax25Frame.from_bytes B = .error .onlyNullBytes ↔ ∀ b ∈ B, b = 0) ∧
    (Ax25Frame.from_bytes B = .error .noEndToAddressField ↔
      ((∃ b ∈ B, b ≠ 0) ∧ ∀ b ∈ B, b &&& 0x01 = 0)) ∧
    (∀ s e, Ax25Frame.from_bytes B = .error (.addressFieldTooShort s e) ↔
      (first_nonzero B s ∧ first_low_bit B e ∧ e - s + 1 < 14)) ∧
    (∀ n, Ax25Frame.from_bytes B = .error (.frameTooShort n) ↔
      (n = B.length ∧ ∃ s e, first_nonzero B s ∧ first_low_bit B e ∧
        ¬(e - s + 1 < 14) ∧ B.length ≤ e + 1)) := by
  have hzn : position (fun c => c != 0) B = Option.none ↔ ∀ b ∈ B, b = 0 := by
    rw [position_eq_none_iff]
    exact ⟨fun h b hb => (bne_zero_false_iff b).mp (h b hb),
      fun h b hb => (bne_zero_false_iff b).mpr (h b hb)⟩
  have hon : position (fun c => c &&& 0x01 == 0x01) B = Option.none ↔
      ∀ b ∈ B, b &&& 0x01 = 0 := by
    rw [position_eq_none_iff]
    exact ⟨fun h b hb => (low_bit_beq_false_iff b).mp (h b hb),
      fun h b hb => (low_bit_beq_false_iff b).mpr (h b hb)⟩
  refine ⟨⟨?_, ?_⟩, ⟨?_, ?_⟩, ?_, ?_⟩
  · intro h
    rcases from_bytes_error_inv B _ h with
      ⟨hpos, -⟩ | ⟨s, -, -, herr⟩ | ⟨s, e, -, -, -, herr⟩ | ⟨s, e, -, -, -, -, herr⟩ |
      ⟨s, e, -, -, -, -, hsub⟩
    · exact hzn.mp hpos
    · exact absurd herr (by simp)
    · exact absurd herr (by simp)
    · exact absurd herr (by simp)
    · rcases hsub with ha | ha | ha | ha
      · exact absurd (parse_address_error_set _ _ ha) (by simp)
      · exact absurd (parse_address_error_set _ _ ha) (by simp)
      · exact absurd (parse_route_error_set _ _ _ _ ha) (by simp)
      · rcases parse_content_error_set _ _ ha with h2 | h2 | h2 | h2 | h2 <;>
          exact absurd h2 (by simp)
  · intro h
    simp only [Ax25Frame.from_bytes, hzn.mpr h]
  · intro h
    rcases from_bytes_error_inv B _ h with
      ⟨-, herr⟩ | ⟨s, hs, hnone, -⟩ | ⟨s, e, -, -, -, herr⟩ | ⟨s, e, -, -, -, -, herr⟩ |
      ⟨s, e, -, -, -, -, hsub⟩
    · exact absurd herr (by simp)
    · obtain ⟨h1, h2, -⟩ := (position_nonzero_iff B s).mp hs
      refine ⟨⟨B.getD s 0, ?_, h2⟩, hon.mp hnone⟩
      rw [List.getD_eq_getElem B 0 h1]
      exact List.getElem_mem h1
    · exact absurd herr (by simp)
    · exact absurd herr (by simp)
    · rcases hsub with ha | ha | ha | ha
      · exact absurd (parse_address_error_set _ _ ha) (by simp)
      · exact absurd (parse_address_error_set _ _ ha) (by simp)
      · exact absurd (parse_route_error_set _ _ _ _ ha) (by simp)
      · rcases parse_content_error_set _ _ ha with h2 | h2 | h2 | h2 | h2 <;>
          exact absurd h2 (by simp)
  · rintro ⟨⟨b, hb, hbne⟩, hall⟩
    have hsome : ∃ s, position (fun c => c != 0) B = some s := by
      cases hp : position (fun c => c != 0) B with
      | none => exact absurd ((hzn.mp hp) b hb) hbne
      | some s => exact ⟨s, rfl⟩
    obtain ⟨s, hs⟩ := hsome
    simp only [Ax25Frame.from_bytes, hs, hon.mpr hall]
  · intro s e
    constructor
    · intro h
      rcases from_bytes_error_inv B _ h with
        ⟨-, herr⟩ | ⟨s2, -, -, herr⟩ | ⟨s2, e2, hs, he, hlt, herr⟩ |
        ⟨s2, e2, -, -, -, -, herr⟩ | ⟨s2, e2, -, -, -, -, hsub⟩
      · exact absurd herr (by simp)
      · exact absurd herr (by simp)
      · injection herr with hcs hce
        subst hcs; subst hce
        exact ⟨(position_nonzero_iff B s).mp hs, (position_low_bit_iff B e).mp he, hlt⟩
      · exact absurd herr (by simp)
      · rcases hsub with ha | ha | ha | ha
        · exact absurd (parse_address_error_set _ _ ha) (by simp)
        · exact absurd (parse_address_error_set _ _ ha) (by simp)
        · exact absurd (parse_route_error_set _ _ _ _ ha) (by simp)
        · rcases parse_content_error_set _ _ ha with h2 | h2 | h2 | h2 | h2 <;>
            exact absurd h2 (by simp)
    · rintro ⟨hfz, hfo, hlt⟩
      simp only [Ax25Frame.from_bytes, (position_nonzero_iff B s).mpr hfz,
        (position_low_bit_iff B e).mpr hfo]
      rw [if_pos hlt]
  · intro n
    constructor
    · intro h
      rcases from_bytes_error_inv B _ h with
        ⟨-, herr⟩ | ⟨s2, -, -, herr⟩ | ⟨s2, e2, -, -, -, herr⟩ |
        ⟨s2, e2, hs, he, hge, hshort, herr⟩ | ⟨s2, e2, -, -, -, -, hsub⟩
      · exact absurd herr (by simp)
      · exact absurd herr (by simp)
      · exact absurd herr (by simp)
      · injection herr with hn
        subst hn
        exact ⟨rfl, s2, e2, (position_nonzero_iff B s2).mp hs,
          (position_low_bit_iff B e2).mp he, hge, hshort⟩
      · rcases hsub with ha | ha | ha | ha
        · exact absurd (parse_address_error_set _ _ ha) (by simp)
        · exact absurd (parse_address_error_set _ _ ha) (by simp)
        · exact absurd (parse_route_error_set _ _ _ _ ha) (by simp)
        · rcases parse_content_error_set _ _ ha with h2 | h2 | h2 | h2 | h2 <;>
            exact absurd h2 (by simp)
    · rintro ⟨hn, s, e, hfz, hfo, hge, hshort⟩
      subst hn
      simp only [Ax25Frame.from_bytes, (position_nonzero_iff B s).mpr hfz,
        (position_low_bit_iff B e).mpr hfo]
      rw [if_neg hge, if_pos hshort]

/-- A subslice of a byte slice only contains bytes of the slice. -/
theorem subslice_subset (bytes : List Nat) (s t : Nat) : subslice bytes s t ⊆ bytes := by
  intro b hb
  exact List.drop_subset _ _ (List.take_subset _ _ hb)

/-- On octet input the repeater loop never fails, because parse_address
never fails. -/
theorem parse_route_no_error (bytes : List Nat) (h256 : ∀ b ∈ bytes, b < 256) :
    ∀ (k base : Nat) (e : FrameParseError), parse_route bytes base k ≠ .error e := by
  intro k
  induction k with
  | zero => intro base e h; simp [parse_route] at h
  | succ n ih =>
    intro base e h
    have hsub : ∀ b ∈ subslice bytes base (base + 7), b < 256 :=
      fun b hb => h256 b (subslice_subset bytes base (base + 7) hb)
    simp only [parse_route, parse_address_ok _ hsub] at h
    cases hr : parse_route bytes (base + 7) n with
    | error e2 => exact ih (base + 7) e2 hr
    | ok r => simp only [hr] at h; exact absurd h (by simp)

/-- The encoded address is seven octets for a callsign of at most six
bytes. -/
theorem Address.to_bytes_length (a : Address) (hb fa : Bool)
    (h : a.callsign.length ≤ 6) : (a.to_bytes hb fa).length = 7 := by
  simp [Address.to_bytes]
  omega

/-- The seventh octet of the encoded address is the packed SSID octet. -/
theorem Address.to_bytes_getD6 (a : Address) (hb fa : Bool)
    (h : a.callsign.length ≤ 6) :
    (a.to_bytes hb fa).getD 6 0 =
      ((a.ssid <<< 1) % 256) ||| 0x60 ||| (if hb then 0x80 else 0) |||
        (if fa then 0x01 else 0) := by
  have hpadlen :
      (a.callsign.map (fun b => (b <<< 1) % 256) ++
        List.replicate (6 - a.callsign.length) 0x40).length = 6 := by
    simp
    omega
  have hbytes : a.to_bytes hb fa =
      (a.callsign.map (fun b => (b <<< 1) % 256) ++
        List.replicate (6 - a.callsign.length) 0x40) ++
        [((a.ssid <<< 1) % 256) ||| 0x60 ||| (if hb then 0x80 else 0) |||
          (if fa then 0x01 else 0)] := by
    simp [Address.to_bytes]
  rw [hbytes, List.getD_append_right _ _ _ _ (by omega), hpadlen]
  rfl

/-- The high bit of the packed SSID octet is exactly the high_bit flag,
for SSIDs within the data-model range. -/
theorem ssid_octet_high :
    ∀ s, s < 16 → ∀ (hb fa : Bool),
      ((((s <<< 1) % 256) ||| 0x60 ||| (if hb then 0x80 else 0) |||
        (if fa then 0x01 else 0)) &&& 0x80) = (if hb then 0x80 else 0) := by
  decide

/-- The SSID octets of an encoded frame sit at offsets 6 and 13. -/
theorem to_bytes_ssid_octets (f : Ax25Frame) (db sb : Bool)
    (h6d : f.destination.callsign.length ≤ 6) (h6s : f.source.callsign.length ≤ 6) :
    (f.destination.to_bytes db false ++ f.source.to_bytes sb f.route.isEmpty ++
        encode_route f.route ++ f.content.encode).getD 6 0 =
      ((f.destination.ssid <<< 1) % 256) ||| 0x60 ||| (if db then 0x80 else 0) |||
        (if (false : Bool) then 0x01 else 0) ∧
    (f.destination.to_bytes db false ++ f.source.to_bytes sb f.route.isEmpty ++
        encode_route f.route ++ f.content.encode).getD 13 0 =
      ((f.source.ssid <<< 1) % 256) ||| 0x60 ||| (if sb then 0x80 else 0) |||
        (if f.route.isEmpty then 0x01 else 0) := by
  have hld : (f.destination.to_bytes db false).length = 7 :=
    Address.to_bytes_length _ _ _ h6d
  have hls : (f.source.to_bytes sb f.route.isEmpty).length = 7 :=
    Address.to_bytes_length _ _ _ h6s
  rw [List.append_assoc, List.append_assoc]
  constructor
  · rw [List.getD_append _ _ _ _ (by omega)]
    exact Address.to_bytes_getD6 _ _ _ h6d
  · rw [List.getD_append_right _ _ _ _ (by omega), hld,
      List.getD_append _ _ _ _ (by omega)]
    exact Address.to_bytes_getD6 _ _ _ h6s

/-- C7: the command/response field is derived on decode from the pair of
C bits and re-materialized on encode, a command_or_response of none being
encoded as Command. -/
theorem c7_command_response :
    (∀ (B : List Nat) (f : Ax25Frame), Ax25Frame.from_bytes B = .ok f →
      ((f.command_or_response = some .command) ↔
        (f.destination.c_bit = true ∧ f.source.c_bit = false)) ∧
      ((f.command_or_response = some .response) ↔
        (f.destination.c_bit = false ∧ f.source.c_bit = true)) ∧
      ((f.command_or_response = Option.none) ↔
        f.destination.c_bit = f.source.c_bit)) ∧
    (∀ f : Ax25Frame, f.destination.callsign.length ≤ 6 →
      f.source.callsign.length ≤ 6 →
      f.destination.ssid ≤ 15 → f.source.ssid ≤ 15 →
      ((f.to_bytes.getD 6 0 &&& 0x80 = 0x80 ∧ f.to_bytes.getD 13 0 &&& 0x80 = 0) ↔
        f.command_or_response ≠ some .response) ∧
      ((f.to_bytes.getD 6 0 &&& 0x80 = 0 ∧ f.to_bytes.getD 13 0 &&& 0x80 = 0x80) ↔
        f.command_or_response = some .response)) := by
  constructor
  · intro B f h
    obtain ⟨s, e, dest, src, route, content, -, -, -, -, -, -, -, -, hf⟩ :=
      from_bytes_ok_inv B f h
    subst hf
    dsimp only
    cases hdc : dest.c_bit <;> cases hsc : src.c_bit <;> simp [derive_cor]
  · intro f h6d h6s h15d h15s
    rcases hcor : f.command_or_response with _ | cr
    · have hbits : f.to_bytes =
          f.destination.to_bytes true false ++
            f.source.to_bytes false f.route.isEmpty ++
            encode_route f.route ++ f.content.encode := by
        simp only [Ax25Frame.to_bytes, hcor]
      obtain ⟨hg6, hg13⟩ := to_bytes_ssid_octets f true false h6d h6s
      rw [hbits, hg6, hg13, ssid_octet_high f.destination.ssid (by omega) true false,
        ssid_octet_high f.source.ssid (by omega) false f.route.isEmpty]
      simp
    · cases cr with
      | command =>
        have hbits : f.to_bytes =
            f.destination.to_bytes true false ++
              f.source.to_bytes false f.route.isEmpty ++
              encode_route f.route ++ f.content.encode := by
          simp only [Ax25Frame.to_bytes, hcor]
        obtain ⟨hg6, hg13⟩ := to_bytes_ssid_octets f true false h6d h6s
        rw [hbits, hg6, hg13, ssid_octet_high f.destination.ssid (by omega) true false,
          ssid_octet_high f.source.ssid (by omega) false f.route.isEmpty]
        simp
      | response =>
        have hbits : f.to_bytes =
            f.destination.to_bytes false false ++
              f.source.to_bytes true f.route.isEmpty ++
              encode_route f.route ++ f.content.encode := by
          simp only [Ax25Frame.to_bytes, hcor]
        obtain ⟨hg6, hg13⟩ := to_bytes_ssid_octets f false true h6d h6s
        rw [hbits, hg6, hg13, ssid_octet_high f.destination.ssid (by omega) false false,
          ssid_octet_high f.source.ssid (by omega) true f.route.isEmpty]
        simp

/-- Witness for C7 at a concrete decoded frame and a concrete encoded
frame. -/
theorem c7_command_response_witness :
    (∀ f, Ax25Frame.from_bytes
        [0x82, 0x40, 0x40, 0x40, 0x40, 0x40, 0xE0,
         0x84, 0x40, 0x40, 0x40, 0x40, 0x40, 0x61, 0x03, 0xF0] = .ok f →
      ((f.command_or_response = some .command) ↔
        (f.destination.c_bit = true ∧ f.source.c_bit = false))) ∧
    ((Ax25Frame.mk (Address.mk [0x42] 0 false) (Address.mk [0x41] 0 true) []
        (some .response) (.unnumberedInformation ⟨.none, [], false⟩)).to_bytes.getD 6 0 &&&
      0x80 = 0) := by
  constructor
  · intro f h
    exact ((c7_command_response.1 _ f h).1)
  · have := (c7_command_response.2
      (Ax25Frame.mk (Address.mk [0x42] 0 false) (Address.mk [0x41] 0 true) []
        (some .response) (.unnumberedInformation ⟨.none, [], false⟩))
      (by decide) (by decide) (by decide) (by decide)).2.mpr (by rfl)
    exact this.1

/-- C10: parse_address returns Ok on every seven-octet slice (the
AddressInvalidUtf8 branch is unreachable because each decoded callsign
byte is an octet shifted right by one, hence ASCII), and consequently
Ax25Frame::from_bytes never fails with AddressInvalidUtf8 on octet
input. -/
theorem c10_no_utf8_error :
    (∀ l : List Nat, l.length = 7 → (∀ b ∈ l, b < 256) →
      ∃ a, parse_address l = .ok a) ∧
    (∀ B : List Nat, (∀ b ∈ B, b < 256) →
      Ax25Frame.from_bytes B ≠ .error .addressInvalidUtf8) := by
  constructor
  · intro l _ h256
    exact ⟨_, parse_address_ok l h256⟩
  · intro B h256 h
    rcases from_bytes_error_inv B _ h with
      ⟨-, herr⟩ | ⟨s, -, -, herr⟩ | ⟨s, e, -, -, -, herr⟩ | ⟨s, e, -, -, -, -, herr⟩ |
      ⟨s, e, -, -, -, -, hsub⟩
    · exact absurd herr (by simp)
    · exact absurd herr (by simp)
    · exact absurd herr (by simp)
    · exact absurd herr (by simp)
    · rcases hsub with ha | ha | ha | ha
      · rw [parse_address_ok _ (fun b hb => h256 b (subslice_subset B s (s + 7) hb))] at ha
        exact absurd ha (by simp)
      · rw [parse_address_ok _
          (fun b hb => h256 b (subslice_subset B (s + 7) (s + 14) hb))] at ha
        exact absurd ha (by simp)
      · exact parse_route_no_error B h256 _ _ _ ha
      · rcases parse_content_error_set _ _ ha with h2 | h2 | h2 | h2 | h2 <;>
          exact absurd h2 (by simp)

/-- Witness for C10 at a seven-octet all-space address slice and a
one-octet frame buffer. -/
theorem c10_no_utf8_error_witness :
    (∃ a, parse_address [0x40, 0x40, 0x40, 0x40, 0x40, 0x40, 0x60] = .ok a) ∧
    Ax25Frame.from_bytes [0x03] ≠ .error .addressInvalidUtf8 :=
  ⟨c10_no_utf8_error.1 [0x40, 0x40, 0x40, 0x40, 0x40, 0x40, 0x60] (by decide) (by decide),
    c10_no_utf8_error.2 [0x03] (by decide)⟩

/-! ## Byte-level reassembly lemmas for the round-trip law -/

/-- Reassembling an even control octet from its I-frame fields. -/
theorem i_control_reassemble :
    ∀ c, c < 256 → c &&& 0x01 = 0 →
      ((((c &&& 0b11100000) >>> 5) &&& 0b0111) <<< 5) |||
        (if c &&& 0b00010000 != 0 then 1 <<< 4 else 0) |||
        ((((c &&& 0b00001110) >>> 1) &&& 0b0111) <<< 1) = c := by
  decide

/-- Reassembling an S control octet from its fields, for each of the
three recognised S sub-types. -/
theorem s_control_reassemble :
    ∀ c, c < 256 →
      (c &&& 0b00001111 = 0b00000001 →
        0b00000001 ||| (if c &&& 0b00010000 != 0 then 1 <<< 4 else 0) |||
          ((((c &&& 0b11100000) >>> 5) &&& 0b0111) <<< 5) = c) ∧
      (c &&& 0b00001111 = 0b00000101 →
        0b00000101 ||| (if c &&& 0b00010000 != 0 then 1 <<< 4 else 0) |||
          ((((c &&& 0b11100000) >>> 5) &&& 0b0111) <<< 5) = c) ∧
      (c &&& 0b00001111 = 0b00001001 →
        0b00001001 ||| (if c &&& 0b00010000 != 0 then 1 <<< 4 else 0) |||
          ((((c &&& 0b11100000) >>> 5) &&& 0b0111) <<< 5) = c) := by
  decide

/-- Reassembling a U control octet from its P/F bit, for each of the
recognised U sub-types. -/
theorem u_control_reassemble :
    ∀ c, c < 256 →
      (c &&& 0b11101111 = 0b00101111 →
        0b00101111 ||| (if c &&& 0b00010000 != 0 then 1 <<< 4 else 0) = c) ∧
      (c &&& 0b11101111 = 0b01000011 →
        0b01000011 ||| (if c &&& 0b00010000 != 0 then 1 <<< 4 else 0) = c) ∧
      (c &&& 0b11101111 = 0b00001111 →
        0b00001111 ||| (if c &&& 0b00010000 != 0 then 1 <<< 4 else 0) = c) ∧
      (c &&& 0b11101111 = 0b01100011 →
        0b01100011 ||| (if c &&& 0b00010000 != 0 then 1 <<< 4 else 0) = c) ∧
      (c &&& 0b11101111 = 0b10000111 →
        0b10000111 ||| (if c &&& 0b00010000 != 0 then 1 <<< 4 else 0) = c) ∧
      (c &&& 0b11101111 = 0b00000011 →
        0b00000011 ||| (if c &&& 0b00010000 != 0 then 1 <<< 4 else 0) = c) := by
  decide

/-- Reassembling the first FRMR info octet from the z, y, x, w flags,
when its high nibble is clear. -/
theorem frmr1_reassemble :
    ∀ b, b < 256 → b &&& 0xF0 = 0 →
      (if b &&& 0b00001000 != 0 then 1 <<< 3 else 0) |||
        (if b &&& 0b00000100 != 0 then 1 <<< 2 else 0) |||
        (if b &&& 0b00000010 != 0 then 1 <<< 1 else 0) |||
        (if b &&& 0b00000001 != 0 then 1 else 0) = b := by
  decide

/-- Reassembling the second FRMR info octet from its sequence numbers
and command/response bit, when its low bit is clear. -/
theorem frmr2_reassemble :
    ∀ b, b < 256 → b &&& 0x01 = 0 →
      ((((b &&& 0b11100000) >>> 5) &&& 0b0111) <<< 5) |||
        (if (if b &&& 0b00010000 != 0 then CommandResponse.response
             else CommandResponse.command) = CommandResponse.response
          then 1 <<< 4 else 0) |||
        ((((b &&& 0b00001110) >>> 1) &&& 0b0111) <<< 1) = b := by
  decide

/-- Reassembling the SSID octet of an address from its parsed fields,
when the reserved bits are set. -/
theorem ssid_octet_roundtrip :
    ∀ b, b < 256 → b &&& 0x60 = 0x60 →
      ((((b >>> 1) &&& 0x0F) <<< 1) % 256) ||| 0x60 |||
        (if b &&& 0x80 != 0 then 0x80 else 0) |||
        (if b &&& 0x01 == 0x01 then 0x01 else 0) = b := by
  decide

/-- An odd control octet is classified as an S or U frame. -/
theorem odd_control_classified :
    ∀ c, c < 256 → ¬(c &&& 0x01 = 0) → c &&& 0x03 = 0x01 ∨ c &&& 0x03 = 0x03 := by
  decide

/-- Element access within a subslice. -/
theorem subslice_getD (B : List Nat) (s t i : Nat) (h1 : i < t - s) :
    (subslice B s t).getD i 0 = B.getD (s + i) 0 := by
  unfold subslice
  rw [List.getD_eq_getElem?_getD, List.getD_eq_getElem?_getD, List.getElem?_take,
    if_pos h1, List.getElem?_drop]

/-- Length of a subslice that lies inside the byte slice. -/
theorem subslice_length (B : List Nat) (s t : Nat) (h : t ≤ B.length) :
    (subslice B s t).length = t - s := by
  unfold subslice
  rw [List.length_take, List.length_drop]
  omega

/-- Every byte list splits into its space-stripped prefix and a block of
trailing spaces. -/
theorem strip_spaces_decomp (m : List Nat) :
    ∃ k, m = ((m.reverse.dropWhile (fun c => c == 0x20)).reverse) ++ List.replicate k 0x20 ∧
      ((m.reverse.dropWhile (fun c => c == 0x20)).reverse).length + k = m.length := by
  refine ⟨(m.reverse.takeWhile (fun c => c == 0x20)).length, ?_, ?_⟩
  · have htw : m.reverse.takeWhile (fun c => c == 0x20) =
        List.replicate (m.reverse.takeWhile (fun c => c == 0x20)).length 0x20 := by
      apply List.eq_replicate_of_mem
      intro b hb
      have := List.mem_takeWhile_imp hb
      simpa using this
    conv_lhs => rw [← m.reverse_reverse,
      ← List.takeWhile_append_dropWhile (p := fun c => c == 0x20) (l := m.reverse)]
    rw [List.reverse_append, htw, List.reverse_replicate]
    simp
  · have hsplit := congrArg List.length
      (List.takeWhile_append_dropWhile (p := fun c => c == 0x20) (l := m.reverse))
    rw [List.length_append, List.length_reverse] at hsplit
    rw [List.length_reverse]
    omega

/-- Shifting an even octet right and back left recovers the octet. -/
theorem shr_shl_even : ∀ b, b < 256 → b % 2 = 0 → ((b >>> 1) <<< 1) % 256 = b := by
  decide

/-- A seven-octet address block whose first six octets are even and whose
SSID octet has the reserved bits set re-encodes to itself: the callsign
parsed from it, re-shifted and re-padded with spaces, together with the
re-packed SSID octet, give back the block. -/
theorem chunk_round_trip (l : List Nat) (hlen : l.length = 7)
    (h256 : ∀ b ∈ l, b < 256)
    (heven6 : ∀ b ∈ l.take 6, b % 2 = 0)
    (hres : l.getD 6 0 &&& 0x60 = 0x60)
    (a : Address) (ha : parse_address l = .ok a) (fi : Bool)
    (hfi : fi = (l.getD 6 0 &&& 0x01 == 0x01)) :
    a.to_bytes a.c_bit fi = l := by
  have ha2 := parse_address_ok l h256
  rw [ha] at ha2
  injection ha2 with ha2
  subst ha2
  subst hfi
  have hm_rev : (l.take 6).reverse.map (fun c => c >>> 1) =
      ((l.take 6).map (fun c => c >>> 1)).reverse := by
    rw [List.map_reverse]
  obtain ⟨k, hdecomp, hklen⟩ := strip_spaces_decomp ((l.take 6).map (fun c => c >>> 1))
  have hm_len : ((l.take 6).map (fun c => c >>> 1)).length = 6 := by
    rw [List.length_map, List.length_take, hlen]
    omega
  have hshlm : ((l.take 6).map (fun c => c >>> 1)).map (fun b => (b <<< 1) % 256) =
      l.take 6 := by
    rw [List.map_map]
    calc (l.take 6).map ((fun b => (b <<< 1) % 256) ∘ fun c => c >>> 1)
        = (l.take 6).map id := by
          apply List.map_congr_left
          intro x hx
          exact shr_shl_even x (h256 x (List.take_subset 6 l hx)) (heven6 x hx)
      _ = l.take 6 := List.map_id _
  dsimp only [Address.to_bytes]
  rw [hm_rev]
  rw [hm_len] at hklen
  have hlen_map :
      ((((l.take 6).map (fun c => c >>> 1)).reverse.dropWhile
        (fun c => c == 0x20)).reverse.map (fun b => (b <<< 1) % 256)).length =
      (((l.take 6).map (fun c => c >>> 1)).reverse.dropWhile
        (fun c => c == 0x20)).reverse.length := by
    rw [List.length_map]
  have hk : 6 - ((((l.take 6).map (fun c => c >>> 1)).reverse.dropWhile
      (fun c => c == 0x20)).reverse.map (fun b => (b <<< 1) % 256)).length = k := by
    rw [hlen_map]
    omega
  rw [hk]
  have h40 : List.replicate k 0x40 =
      (List.replicate k 0x20).map (fun b => (b <<< 1) % 256) := by
    rw [List.map_replicate]
    rfl
  have hfront : (((l.take 6).map (fun c => c >>> 1)).reverse.dropWhile
      (fun c => c == 0x20)).reverse.map (fun b => (b <<< 1) % 256) ++
      List.replicate k 0x40 = l.take 6 := by
    rw [h40, ← List.map_append, ← hdecomp, hshlm]
  rw [hfront]
  have hb6mem : l.getD 6 0 ∈ l := by
    rw [List.getD_eq_getElem l 0 (by omega)]
    exact List.getElem_mem _
  rw [ssid_octet_roundtrip _ (h256 _ hb6mem) hres]
  conv_rhs => rw [← List.take_append_drop 6 l]
  congr 1
  rw [List.drop_eq_getElem_cons (by omega : 6 < l.length),
    List.drop_eq_nil_of_le (by omega), List.getD_eq_getElem l 0 (by omega)]

/-- The empty route encodes to nothing. -/
theorem encode_route_nil : encode_route [] = [] := rfl

/-- A one-entry route encodes its repeater as final-in-address. -/
theorem encode_route_single (en : RouteEntry) :
    encode_route [en] = en.repeater.to_bytes en.has_repeated true := rfl

/-- A longer route encodes its first repeater as not final. -/
theorem encode_route_cons (en x : RouteEntry) (xs : List RouteEntry) :
    encode_route (en :: x :: xs) =
      en.repeater.to_bytes en.has_repeated false ++ encode_route (x :: xs) := rfl

/-- The repeater loop returns exactly as many entries as requested. -/
theorem parse_route_shape (bytes : List Nat) :
    ∀ (k base : Nat) (r : List RouteEntry),
      parse_route bytes base k = .ok r → r.length = k := by
  intro k
  induction k with
  | zero =>
    intro base r h
    injection h with h
    rw [← h]
    rfl
  | succ n ih =>
    intro base r h
    unfold parse_route at h
    cases ha : parse_address (subslice bytes base (base + 7)) with
    | error e => simp only [ha] at h; simp at h
    | ok a =>
      simp only [ha] at h
      cases hr : parse_route bytes (base + 7) n with
      | error e => simp only [hr] at h; simp at h
      | ok rest =>
        simp only [hr] at h
        injection h with h
        rw [← h]
        simp [ih (base + 7) rest hr]

/-- Concatenating adjacent subslices. -/
theorem subslice_split (B : List Nat) (s m t : Nat) (h1 : s ≤ m) (h2 : m ≤ t) :
    subslice B s t = subslice B s m ++ subslice B m t := by
  unfold subslice
  have hsum : t - s = (m - s) + (t - m) := by omega
  have harg : s + (m - s) = m := by omega
  rw [hsum, List.take_add, List.drop_drop, harg]

/-- The repeater region of a well-formed address field re-encodes to
itself: each 7-octet chunk round-trips, the last one carrying the
end-of-address bit. -/
theorem route_encode_exact (B : List Nat) (e : Nat)
    (h256 : ∀ b ∈ B, b < 256)
    (hblen : e + 1 ≤ B.length)
    (heven : ∀ j, j < e → B.getD j 0 % 2 = 0)
    (hodd : B.getD e 0 &&& 0x01 = 1)
    (hres : ∀ k2, 7 * k2 + 6 ≤ e → B.getD (7 * k2 + 6) 0 &&& 0x60 = 0x60) :
    ∀ (k base : Nat) (r : List RouteEntry), base + 7 * k = e + 1 → 7 ∣ base →
      parse_route B base k = .ok r → encode_route r = subslice B base (e + 1) := by
  intro k
  induction k with
  | zero =>
    intro base r hbase hdvd h
    injection h with h
    rw [← h, encode_route_nil]
    have hb : base = e + 1 := by omega
    rw [hb]
    unfold subslice
    simp
  | succ n ih =>
    intro base r hbase hdvd h
    have hbase7 : base + 7 ≤ e + 1 := by omega
    have hchunk_len : (subslice B base (base + 7)).length = 7 := by
      rw [subslice_length B base (base + 7) (by omega)]
      omega
    have hchunk256 : ∀ b ∈ subslice B base (base + 7), b < 256 :=
      fun b hb => h256 b (subslice_subset _ _ _ hb)
    have hchunk_g6 : (subslice B base (base + 7)).getD 6 0 = B.getD (base + 6) 0 :=
      subslice_getD B base (base + 7) 6 (by omega)
    have hres6 : (subslice B base (base + 7)).getD 6 0 &&& 0x60 = 0x60 := by
      rw [hchunk_g6]
      obtain ⟨m, hm⟩ := hdvd
      rw [hm]
      exact hres m (by omega)
    have heven6 : ∀ b ∈ (subslice B base (base + 7)).take 6, b % 2 = 0 := by
      intro b hb
      obtain ⟨i, hi, rfl⟩ := List.getElem_of_mem hb
      have hi6 : i < 6 := by
        rw [List.length_take, hchunk_len] at hi
        omega
      have hget : ((subslice B base (base + 7)).take 6)[i] =
          (subslice B base (base + 7)).getD i 0 := by
        rw [List.getElem_take]
        exact (List.getD_eq_getElem _ 0 (by omega)).symm
      rw [hget, subslice_getD B base (base + 7) i (by omega)]
      exact heven (base + i) (by omega)
    unfold parse_route at h
    cases ha : parse_address (subslice B base (base + 7)) with
    | error e2 => simp only [ha] at h; simp at h
    | ok a =>
      simp only [ha] at h
      cases hrest : parse_route B (base + 7) n with
      | error e2 => simp only [hrest] at h; simp at h
      | ok rest =>
        simp only [hrest] at h
        injection h with h
        rw [← h]
        have hrlen := parse_route_shape B n (base + 7) rest hrest
        cases n with
        | zero =>
          have hrest_nil : rest = [] := List.length_eq_zero.mp hrlen
          subst hrest_nil
          rw [encode_route_single]
          have hb7 : base + 7 = e + 1 := by omega
          have hflag : (true : Bool) =
              ((subslice B base (base + 7)).getD 6 0 &&& 0x01 == 0x01) := by
            rw [hchunk_g6]
            have hb6 : base + 6 = e := by omega
            rw [hb6, hodd]
            rfl
          have hrt := chunk_round_trip _ hchunk_len hchunk256 heven6 hres6 a ha true hflag
          rw [← hb7]
          exact hrt
        | succ n2 =>
          obtain ⟨x, xs, rfl⟩ : ∃ x xs, rest = x :: xs := by
            cases rest with
            | nil => simp at hrlen
            | cons x xs => exact ⟨x, xs, rfl⟩
          rw [encode_route_cons]
          have hflag : (false : Bool) =
              ((subslice B base (base + 7)).getD 6 0 &&& 0x01 == 0x01) := by
            rw [hchunk_g6]
            have heb6 : B.getD (base + 6) 0 % 2 = 0 := heven (base + 6) (by omega)
            have : B.getD (base + 6) 0 &&& 0x01 = 0 := by
              rw [Nat.and_one_is_mod, heb6]
            rw [this]
            rfl
          have hrt := chunk_round_trip _ hchunk_len hchunk256 heven6 hres6 a ha false hflag
          have hih := ih (base + 7) (x :: xs) (by omega)
            (by obtain ⟨m, hm⟩ := hdvd; exact ⟨m + 1, by omega⟩) hrest
          rw [hrt, hih, ← subslice_split B base (base + 7) (e + 1) (by omega) (by omega)]

/-- A content region that parses successfully re-encodes to itself up to
PID canonicalization, provided it satisfies content_exact: S frames and
payload-free U frames have exactly one octet, and the reserved FRMR
info bits are clear. -/
theorem content_encode_exact (l : List Nat) (h256 : ∀ b ∈ l, b < 256)
    (ct : FrameContent) (hok : parse_content l = .ok ct) (hwf : content_exact l) :
    ct.encode = canon_content l := by
  cases l with
  | nil => simp [parse_content] at hok
  | cons c rest =>
    have hc : c < 256 := h256 c (by simp)
    unfold parse_content at hok
    rw [if_neg (by simp)] at hok
    simp only [List.getD_cons_zero] at hok
    simp only [content_exact] at hwf
    split_ifs at hok with hI hS hU
    · -- I frame
      unfold parse_i_frame at hok
      rcases rest with _ | ⟨p, rest2⟩
      · simp at hok
      · rw [if_neg (by simp)] at hok
        injection hok with hok
        rw [← hok]
        simp only [canon_content]
        rw [if_pos (Or.inl hI)]
        simp only [FrameContent.encode]
        simp only [List.getD_cons_zero, List.getD_cons_succ, List.drop_succ_cons,
          List.drop_zero]
        rw [i_control_reassemble c hc hI]
    · -- S frame: exactly one octet
      rw [if_neg hI, if_pos hS] at hwf
      subst hwf
      unfold parse_s_frame at hok
      simp only [List.getD_cons_zero] at hok
      have hcanon : canon_content [c] = [c] := rfl
      split_ifs at hok with h1 h2 h3
      · injection hok with hok
        rw [← hok, hcanon]
        simp only [FrameContent.encode]
        rw [(s_control_reassemble c hc).1 h1]
      · injection hok with hok
        rw [← hok, hcanon]
        simp only [FrameContent.encode]
        rw [(s_control_reassemble c hc).2.1 h2]
      · injection hok with hok
        rw [← hok, hcanon]
        simp only [FrameContent.encode]
        rw [(s_control_reassemble c hc).2.2 h3]
    · -- U frame
      unfold parse_u_frame at hok
      simp only [List.getD_cons_zero] at hok
      split_ifs at hok with u1 u2 u3 u4 u5 u6
      · rw [if_neg hI, if_neg hS, if_neg (by simp [u1]), if_neg (by simp [u1])] at hwf
        subst hwf
        injection hok with hok
        rw [← hok]
        simp only [FrameContent.encode]
        rw [(u_control_reassemble c hc).1 u1]
        rfl
      · rw [if_neg hI, if_neg hS, if_neg (by simp [u2]), if_neg (by simp [u2])] at hwf
        subst hwf
        injection hok with hok
        rw [← hok]
        simp only [FrameContent.encode]
        rw [(u_control_reassemble c hc).2.1 u2]
        rfl
      · rw [if_neg hI, if_neg hS, if_neg (by simp [u3]), if_neg (by simp [u3])] at hwf
        subst hwf
        injection hok with hok
        rw [← hok]
        simp only [FrameContent.encode]
        rw [(u_control_reassemble c hc).2.2.1 u3]
        rfl
      · rw [if_neg hI, if_neg hS, if_neg (by simp [u4]), if_neg (by simp [u4])] at hwf
        subst hwf
        injection hok with hok
        rw [← hok]
        simp only [FrameContent.encode]
        rw [(u_control_reassemble c hc).2.2.2.1 u4]
        rfl
      · -- FRMR
        rw [if_neg hI, if_neg hS, if_neg (by simp [u5]), if_pos u5] at hwf
        unfold parse_frmr_frame at hok
        rcases rest with _ | ⟨i0, rest2⟩
        · simp at hok
        rcases rest2 with _ | ⟨i1, rest3⟩
        · simp at hok
        rcases rest3 with _ | ⟨i2, rest4⟩
        · simp at hok
        rcases rest4 with _ | ⟨i3, rest5⟩
        swap
        · simp at hok
        rw [if_neg (by simp)] at hok
        injection hok with hok
        rw [← hok]
        simp only [List.getD_cons_zero, List.getD_cons_succ] at hwf ⊢
        simp only [FrameContent.encode]
        simp only [canon_content]
        have hncond : ¬(c &&& 0x01 = 0 ∨
            (c &&& 0x03 = 0x03 ∧ c &&& 0b11101111 = 0b00000011)) := by
          rintro (hodd | ⟨-, h3⟩)
          · exact hI hodd
          · rw [u5] at h3
            simp at h3
        rw [if_neg hncond]
        rw [(u_control_reassemble c hc).2.2.2.2.1 u5,
          frmr1_reassemble i0 (h256 i0 (by simp)) hwf.1,
          frmr2_reassemble i1 (h256 i1 (by simp)) hwf.2]
      · -- UI
        unfold parse_ui_frame at hok
        rcases rest with _ | ⟨p, rest2⟩
        · simp at hok
        · rw [if_neg (by simp)] at hok
          injection hok with hok
          rw [← hok]
          simp only [canon_content]
          rw [if_pos (Or.inr ⟨hU, u6⟩)]
          simp only [FrameContent.encode]
          simp only [List.getD_cons_zero, List.getD_cons_succ, List.drop_succ_cons,
            List.drop_zero]
          rw [(u_control_reassemble c hc).2.2.2.2.2 u6]
    · exact absurd (odd_control_classified c hc hI) (by simp [hS, hU])

/-- The 0x80 mask of an octet is 0 or 0x80. -/
theorem and_128_cases : ∀ x, x < 256 → x &&& 0x80 = 0 ∨ x &&& 0x80 = 0x80 := by
  decide

/-- Indexed bound transfer for octet slices. -/
theorem getD_lt_256 (B : List Nat) (h256 : ∀ b ∈ B, b < 256) (i : Nat)
    (h : i < B.length) : B.getD i 0 < 256 := by
  rw [List.getD_eq_getElem B 0 h]
  exact h256 _ (List.getElem_mem h)

/-- The first six octets of a 7-octet chunk inside the address field are
even. -/
theorem chunk_take6_even (B : List Nat) (e base : Nat)
    (heven : ∀ j, j < e → B.getD j 0 % 2 = 0) (h : base + 6 ≤ e) :
    ∀ b ∈ (subslice B base (base + 7)).take 6, b % 2 = 0 := by
  intro b hb
  obtain ⟨i, hi, rfl⟩ := List.getElem_of_mem hb
  have hi6 : i < 6 := by
    rw [List.length_take] at hi
    omega
  have hil : i < (subslice B base (base + 7)).length := by
    rw [List.length_take] at hi
    omega
  have hget : ((subslice B base (base + 7)).take 6)[i] =
      (subslice B base (base + 7)).getD i 0 := by
    rw [List.getD_eq_getElem _ 0 hil]
    exact List.getElem_take _
  rw [hget, subslice_getD B base (base + 7) i (by omega)]
  exact heven (base + i) (by omega)

/-- C1 (amended): the decode-then-encode round trip.  For a byte
sequence B that parses successfully into a frame whose content is not
UnknownContent, re-encoding reproduces B exactly, up to the canonical
re-encoding of a Layer3Impl PID octet, provided B is well-formed in the
ways the codec does not preserve: no leading zero octets, an address
field that is a whole number of 7-octet addresses, reserved SSID bits
set, exactly one of the two C bits set, and a content region with no
trailing octets after a payload-free control octet and no reserved FRMR
bits. -/
theorem c1_round_trip (B : List Nat) (f : Ax25Frame) (e : Nat)
    (h256 : ∀ b ∈ B, b < 256)
    (hok : Ax25Frame.from_bytes B = .ok f)
    (hnotunk : ¬ f.content.isUnknown)
    (hhead : B.getD 0 0 ≠ 0)
    (he : first_low_bit B e)
    (hdiv : 7 ∣ (e + 1))
    (hres : ∀ k, 7 * k + 6 ≤ e → B.getD (7 * k + 6) 0 &&& 0x60 = 0x60)
    (hcor : B.getD 6 0 &&& 0x80 ≠ B.getD 13 0 &&& 0x80)
    (hct : content_exact (B.drop (e + 1))) :
    Ax25Frame.to_bytes f = B.take (e + 1) ++ canon_content (B.drop (e + 1)) := by
  obtain ⟨s, e2, dest, src, route, content, hs, he2, hshort, hlong, hdest, hsrc,
    hroute, hcontent, hf⟩ := from_bytes_ok_inv B f hok
  have hs0 : s = 0 := by
    obtain ⟨h1, h2, h3⟩ := (position_nonzero_iff B s).mp hs
    by_contra hne
    exact hhead (h3 0 (by omega))
  subst hs0
  have hee : e2 = e := by
    have h2 := (position_low_bit_iff B e).mpr he
    rw [he2] at h2
    exact Option.some.inj h2
  rw [hee] at hshort hlong hroute hcontent
  obtain ⟨helen, heodd, hefirst⟩ := he
  have heven : ∀ j, j < e → B.getD j 0 % 2 = 0 := by
    intro j hj
    have h2 := hefirst j hj
    rw [Nat.and_one_is_mod] at h2
    omega
  have h14 : 14 ≤ e + 1 := by omega
  have hblen : e + 1 ≤ B.length := by omega
  obtain ⟨m, hm⟩ := hdiv
  have hm2 : 2 ≤ m := by omega
  -- destination chunk
  have hd256 : ∀ b ∈ subslice B 0 7, b < 256 :=
    fun b hb => h256 b (subslice_subset _ _ _ hb)
  have hdlen : (subslice B 0 7).length = 7 := by
    rw [subslice_length _ _ _ (by omega)]
  have hdg6 : (subslice B 0 7).getD 6 0 = B.getD 6 0 := by
    have h2 := subslice_getD B 0 7 6 (by omega)
    simpa using h2
  have hdest2 := parse_address_ok _ hd256
  rw [hdest] at hdest2
  injection hdest2 with hdest2
  have hdc : dest.c_bit = (B.getD 6 0 &&& 0x80 != 0) := by
    rw [hdest2, ← hdg6]
  have hdres : (subslice B 0 7).getD 6 0 &&& 0x60 = 0x60 := by
    rw [hdg6]
    have h2 := hres 0 (by omega)
    simpa using h2
  have hdeven := chunk_take6_even B e 0 heven (by omega)
  -- source chunk
  have hs256 : ∀ b ∈ subslice B 7 14, b < 256 :=
    fun b hb => h256 b (subslice_subset _ _ _ hb)
  have hslen : (subslice B 7 14).length = 7 := by
    rw [subslice_length _ _ _ (by omega)]
  have hsg6 : (subslice B 7 14).getD 6 0 = B.getD 13 0 := by
    have h2 := subslice_getD B 7 14 6 (by omega)
    simpa using h2
  have hsrc2 := parse_address_ok _ hs256
  rw [hsrc] at hsrc2
  injection hsrc2 with hsrc2
  have hsc : src.c_bit = (B.getD 13 0 &&& 0x80 != 0) := by
    rw [hsrc2, ← hsg6]
  have hsres : (subslice B 7 14).getD 6 0 &&& 0x60 = 0x60 := by
    rw [hsg6]
    exact hres 1 (by omega)
  have hseven := chunk_take6_even B e 7 heven (by omega)
  -- route facts
  have hrpt : (e + 1 - 0 - 14) / 7 = m - 2 := by omega
  rw [hrpt] at hroute
  have hrlen := parse_route_shape B (m - 2) 14 route hroute
  have hrempty : route.isEmpty = (B.getD 13 0 &&& 0x01 == 0x01) := by
    by_cases hm3 : m = 2
    · have hroute_nil : route = [] := List.length_eq_zero.mp (by omega)
      have h13e : (13 : Nat) = e := by omega
      rw [hroute_nil, h13e, heodd]
      rfl
    · have hroute_ne : route ≠ [] := by
        intro hnil
        rw [hnil] at hrlen
        simp at hrlen
        omega
      have h13lt : 13 < e := by omega
      have h2 : B.getD 13 0 &&& 0x01 = 0 := by
        have h3 := heven 13 h13lt
        rw [Nat.and_one_is_mod]
        omega
      rw [h2]
      cases hroute_shape : route with
      | nil => exact absurd hroute_shape hroute_ne
      | cons x xs => rfl
  -- destination block
  have hdflag : (false : Bool) = ((subslice B 0 7).getD 6 0 &&& 0x01 == 0x01) := by
    rw [hdg6]
    have h2 : B.getD 6 0 &&& 0x01 = 0 := by
      have h3 := heven 6 (by omega)
      rw [Nat.and_one_is_mod]
      omega
    rw [h2]
    rfl
  have hdblock := chunk_round_trip _ hdlen hd256 hdeven hdres dest hdest false hdflag
  -- source block
  have hsflag : route.isEmpty = ((subslice B 7 14).getD 6 0 &&& 0x01 == 0x01) := by
    rw [hsg6, hrempty]
  have hsblock := chunk_round_trip _ hslen hs256 hseven hsres src hsrc route.isEmpty hsflag
  -- route block
  have hrblock := route_encode_exact B e h256 hblen heven heodd hres (m - 2) 14 route
    (by omega) (by exact ⟨2, by omega⟩) hroute
  -- content block
  have hcblock := content_encode_exact (B.drop (e + 1))
    (fun b hb => h256 b (List.drop_subset _ _ hb)) content hcontent hct
  -- assemble
  subst hf
  dsimp only [Ax25Frame.to_bytes]
  rcases and_128_cases (B.getD 6 0) (getD_lt_256 B h256 6 (by omega)) with h6a | h6a <;>
    rcases and_128_cases (B.getD 13 0) (getD_lt_256 B h256 13 (by omega)) with h13a | h13a
  · exact absurd (h6a.trans h13a.symm) hcor
  · -- dest clear, src set: Response
    have hdcb : dest.c_bit = false := by rw [hdc, h6a]; rfl
    have hscb : src.c_bit = true := by rw [hsc, h13a]; rfl
    have hdblock2 : dest.to_bytes false false = subslice B 0 7 := hdcb ▸ hdblock
    have hsblock2 : src.to_bytes true route.isEmpty = subslice B 7 14 := hscb ▸ hsblock
    rw [hdcb, hscb]
    dsimp only [derive_cor]
    rw [hdblock2, hsblock2, hrblock, hcblock]
    have htake : B.take (e + 1) =
        subslice B 0 7 ++ subslice B 7 14 ++ subslice B 14 (e + 1) := by
      have h1 : B.take (e + 1) = subslice B 0 (e + 1) := by
        unfold subslice
        simp
      rw [h1, subslice_split B 0 14 (e + 1) (by omega) (by omega),
        subslice_split B 0 7 14 (by omega) (by omega)]
    rw [htake]
  · -- dest set, src clear: Command
    have hdcb : dest.c_bit = true := by rw [hdc, h6a]; rfl
    have hscb : src.c_bit = false := by rw [hsc, h13a]; rfl
    have hdblock2 : dest.to_bytes true false = subslice B 0 7 := hdcb ▸ hdblock
    have hsblock2 : src.to_bytes false route.isEmpty = subslice B 7 14 := hscb ▸ hsblock
    rw [hdcb, hscb]
    dsimp only [derive_cor]
    rw [hdblock2, hsblock2, hrblock, hcblock]
    have htake : B.take (e + 1) =
        subslice B 0 7 ++ subslice B 7 14 ++ subslice B 14 (e + 1) := by
      have h1 : B.take (e + 1) = subslice B 0 (e + 1) := by
        unfold subslice
        simp
      rw [h1, subslice_split B 0 14 (e + 1) (by omega) (by omega),
        subslice_split B 0 7 14 (by omega) (by omega)]
    rw [htake]
  · exact absurd (h6a.trans h13a.symm) hcor

/-- Counterexample to C1 as stated: a frame preceded by a single null
octet decodes successfully (the decoder skips leading nulls) to a frame
with known content, but re-encoding yields the 16 octets without the
null, so the output differs from the input in length alone — no PID
canonicalization is involved. -/
theorem c1_round_trip_counterexample :
    ∃ f, Ax25Frame.from_bytes
        [0x00, 0x82, 0x40, 0x40, 0x40, 0x40, 0x40, 0xE0,
         0x84, 0x40, 0x40, 0x40, 0x40, 0x40, 0x61, 0x03, 0xF0] = .ok f ∧
      ¬ f.content.isUnknown ∧
      Ax25Frame.to_bytes f =
        [0x82, 0x40, 0x40, 0x40, 0x40, 0x40, 0xE0,
         0x84, 0x40, 0x40, 0x40, 0x40, 0x40, 0x61, 0x03, 0xF0] ∧
      Ax25Frame.to_bytes f ≠
        [0x00, 0x82, 0x40, 0x40, 0x40, 0x40, 0x40, 0xE0,
         0x84, 0x40, 0x40, 0x40, 0x40, 0x40, 0x61, 0x03, 0xF0] ∧
      (Ax25Frame.to_bytes f).length + 1 =
        ([0x00, 0x82, 0x40, 0x40, 0x40, 0x40, 0x40, 0xE0,
          0x84, 0x40, 0x40, 0x40, 0x40, 0x40, 0x61, 0x03, 0xF0] : List Nat).length := by
  refine ⟨{ source := { callsign := [0x42], ssid := 0, c_bit := false }
            destination := { callsign := [0x41], ssid := 0, c_bit := true }
            route := []
            command_or_response := some .command
            content := .unnumberedInformation
              { pid := .none, info := [], poll_or_final := false } },
    by rfl, by decide, by rfl, by decide, by rfl⟩

/-- Witness for the amended C1 at a concrete 16-octet UI frame. -/
theorem c1_round_trip_witness :
    Ax25Frame.to_bytes
      { source := { callsign := [0x42], ssid := 0, c_bit := false }
        destination := { callsign := [0x41], ssid := 0, c_bit := true }
        route := []
        command_or_response := some .command
        content := .unnumberedInformation
          { pid := .none, info := [], poll_or_final := false } } =
      List.take (13 + 1)
        [0x82, 0x40, 0x40, 0x40, 0x40, 0x40, 0xE0,
         0x84, 0x40, 0x40, 0x40, 0x40, 0x40, 0x61, 0x03, 0xF0] ++
      canon_content (List.drop (13 + 1)
        [0x82, 0x40, 0x40, 0x40, 0x40, 0x40, 0xE0,
         0x84, 0x40, 0x40, 0x40, 0x40, 0x40, 0x61, 0x03, 0xF0]) :=
  c1_round_trip
    [0x82, 0x40, 0x40, 0x40, 0x40, 0x40, 0xE0,
     0x84, 0x40, 0x40, 0x40, 0x40, 0x40, 0x61, 0x03, 0xF0]
    { source := { callsign := [0x42], ssid := 0, c_bit := false }
      destination := { callsign := [0x41], ssid := 0, c_bit := true }
      route := []
      command_or_response := some .command
      content := .unnumberedInformation
        { pid := .none, info := [], poll_or_final := false } }
    13 (by decide) (by rfl) (by decide) (by decide) (by decide) (by decide)
    (by
      intro k hk
      have hk2 : k = 0 ∨ k = 1 := by omega
      rcases hk2 with rfl | rfl <;> decide)
    (by decide) (by decide)

/-- Witness for C6 at the concrete buffers [0x00, 0x00] (only nulls) and
a 15-byte frame whose address field ends too early. -/
theorem c6_error_conditions_witness :
    Ax25Frame.from_bytes [0x00, 0x00] = .error .onlyNullBytes ∧
    Ax25Frame.from_bytes [0x02, 0x02] = .error .noEndToAddressField ∧
    Ax25Frame.from_bytes [0x02, 0x03] = .error (.addressFieldTooShort 0 1) := by
  refine ⟨((c6_error_conditions [0x00, 0x00]).1).mpr (by decide),
    ((c6_error_conditions [0x02, 0x02]).2.1).mpr ⟨⟨0x02, by decide, by decide⟩, by decide⟩,
    ((c6_error_conditions [0x02, 0x03]).2.2.1 0 1).mpr ⟨by decide, by decide, by decide⟩⟩

end Ax25
